import Mathlib

/-!
# Verification of the Mikrotik router reconciliation engine

A shallow embedding of `custom_components/mikrotik_router/mikrotik_controller.py`
(class `MikrotikControllerData`): the ARP/bridge client resolver, the NAT
deduplicator, the DHCP/host identity merger, the DHCP network mapper and the
queue unit converter, together with proofs about them.

Python records ("mapping of string → scalar") are modelled as insertion-ordered
association lists of `String × Val`; keyed collections (`self.data["..."]`) as
association lists of `String × Rec`.  This mirrors the ordered-dict semantics of
Python `dict`: lookup finds the (unique) binding, assignment replaces an
existing binding in place keeping its position and appends new keys at the end.
Exceptions (`KeyError`, `ValueError`, `AttributeError`) are modelled with
`Except PyErr`.
-/

namespace Mikrotik

/-- A Python scalar value as it occurs in the controller's data model:
strings, booleans, integers, parsed `IPv4Network` objects (tagged by the
address string they were built from) and `utcnow()` timestamps (abstract
tick).  Equality between values of different constructors is `False`, matching
Python `==` across these types. -/
inductive Val where
  | str (s : String)
  | bool (b : Bool)
  | int (n : Int)
  | net (s : String)
  | time (n : Nat)
deriving DecidableEq, Repr

/-- The Python exceptions the controller code can raise. -/
inductive PyErr where
  | keyError (k : String)
  | valueError
  | attributeError
deriving DecidableEq, Repr

/-- Python truthiness (`if x:`) for the values in our model. -/
def Val.truthy : Val → Bool
  | .str s => s ≠ ""
  | .bool b => b
  | .int n => n ≠ 0
  | .net _ => true
  | .time _ => true

/-- Ordered-dict lookup: value of the first binding of `k`. -/
def alookup {α : Type} (l : List (String × α)) (k : String) : Option α :=
  (l.find? (fun p => p.1 = k)).map (·.2)

/-- Python `k in d`. -/
def ahas {α : Type} (l : List (String × α)) (k : String) : Bool :=
  (alookup l k).isSome

/-- Python `d[k] = v`: replace the binding in place when the key exists
(keeping its position), else append at the end. -/
def aset {α : Type} : List (String × α) → String → α → List (String × α)
  | [], k, v => [(k, v)]
  | (a, b) :: t, k, v => if a = k then (k, v) :: t else (a, b) :: aset t k v

/-- A record: one string-keyed Python dict of scalars. -/
abbrev Rec := List (String × Val)

/-- A keyed collection: one of the dicts under `self.data`. -/
abbrev Col := List (String × Rec)

/-- `r.get(k)`-style lookup on a record. -/
abbrev rlookup (r : Rec) (k : String) : Option Val := alookup r k

/-- Python `k in r` on a record. -/
abbrev rhas (r : Rec) (k : String) : Bool := ahas r k

/-- Python `r[k] = v` on a record. -/
abbrev rset (r : Rec) (k : String) (v : Val) : Rec := aset r k v

/-- Python `r[k]`: raises `KeyError` when the key is absent. -/
def getItem (r : Rec) (k : String) : Except PyErr Val :=
  match rlookup r k with
  | some v => .ok v
  | none => .error (.keyError k)

/-- Collection lookup (`self.data[coll].get(uid)`). -/
abbrev clookup (c : Col) (uid : String) : Option Rec := alookup c uid

/-- Python `uid in coll`. -/
abbrev chas (c : Col) (uid : String) : Bool := ahas c uid

/-- Python `coll[uid] = r`. -/
abbrev cset (c : Col) (uid : String) (r : Rec) : Col := aset c uid r

/-- Modelled from the spec: `from_entry` from the repository's `helper` module,
which is not under `src/`.  Per §6 "absence of a field means 'not reported'";
the helper returns the record's value for the field, with the empty string as
default when the field is absent (§4.3: "defaulting to empty if unresolved"). -/
def from_entry (entry : Rec) (k : String) : Val :=
  (rlookup entry k).getD (.str "")

/-- Lookup in a Python dict keyed by scalar values (the `mac2ip` side table
and `nat_uniq`, whose keys are router-supplied values). -/
def vlookup {α : Type} (l : List (Val × α)) (k : Val) : Option α :=
  (l.find? (fun p => p.1 = k)).map (·.2)

deriving instance DecidableEq for Except

/-!
## Interface/ARP/Bridge resolver

Embeds `get_interface_client`, `update_arp`, `update_bridge_hosts` and
`get_iface_from_entry` (mikrotik_controller.py lines 315-442).  The raw API
responses `self.api.path("/ip/arp")` and `self.api.path("/interface/bridge/host")`
are passed in as lists of records; `self.data["interface"]` and the scratch
collection `self.data["arp_tmp"]` are passed and returned explicitly.
-/

/-- The inner scan of `get_iface_from_entry`: walk `self.data["interface"]`
and return the first key whose record's `"name"` equals the wanted value
(`break` on the first hit).  The direct index `self.data["interface"][ifacename]["name"]`
raises `KeyError` when an interface record lacks `"name"`. -/
def find_iface : Col → Val → Except PyErr (Option String)
  | [], _ => .ok none
  | (uid, r) :: rest, want =>
    match getItem r "name" with
    | .error e => .error e
    | .ok n => if n = want then .ok (some uid) else find_iface rest want

/-- `get_iface_from_entry`: resolve an entry's `"interface"` name to the
interface collection key (the default-name). -/
def get_iface_from_entry (interfaces : Col) (entry : Rec) : Except PyErr (Option String) :=
  match getItem entry "interface" with
  | .error e => .error e
  | .ok want => find_iface interfaces want

/-- The mutable state threaded through `update_arp`: the `arp_tmp` scratch
collection, the bridge MAC→IP side table and the "bridge in use" flag. -/
structure ArpAcc where
  arp_tmp : Col
  mac2ip : List (Val × Val)
  bridge_used : Bool
deriving DecidableEq, Repr

/-- `mac2ip[mac] = address` (Python dict assignment, scalar-keyed). -/
def vset (l : List (Val × Val)) (k v : Val) : List (Val × Val) :=
  match l with
  | [] => [(k, v)]
  | (a, b) :: t => if a = k then (k, v) :: t else (a, b) :: vset t k v

/-- Lines 382-388: fill the scratch slot for `uid` from a non-bridge ARP
entry — set `interface`, then mac-address (the entry's value, or `"multiple"`
when the key is already occupied), then address likewise. -/
def arp_slot_update (slot : Rec) (uid : String) (entry : Rec) : Rec :=
  let slot := rset slot "interface" (.str uid)
  let slot := rset slot "mac-address"
    (if rhas slot "mac-address" then .str "multiple" else from_entry entry "mac-address")
  let slot := rset slot "address"
    (if rhas slot "address" then .str "multiple" else from_entry entry "address")
  slot

/-- One iteration of the `update_arp` loop body (lines 354-388): skip entries
whose `"invalid"` field is truthy (the access `entry["invalid"]` raises
`KeyError` when absent) or that lack `"interface"`; a `"bridge"` entry sets the
flag and feeds the MAC→IP side table; otherwise the entry is resolved to an
interface key and written into the scratch slot, any already-occupied
mac/address key turning into the `"multiple"` sentinel. -/
def update_arp_step (interfaces : Col) (acc : ArpAcc) (entry : Rec) : Except PyErr ArpAcc :=
  match getItem entry "invalid" with
  | .error e => .error e
  | .ok inv =>
    if inv.truthy then .ok acc
    else if ¬ rhas entry "interface" then .ok acc
    else if rlookup entry "interface" = some (.str "bridge") then
      .ok { acc with
              bridge_used := true,
              mac2ip :=
                if rhas entry "mac-address" ∧ rhas entry "address" then
                  vset acc.mac2ip ((rlookup entry "mac-address").getD (.str ""))
                    ((rlookup entry "address").getD (.str ""))
                else acc.mac2ip }
    else
      match get_iface_from_entry interfaces entry with
      | .error e => .error e
      | .ok none => .ok acc
      | .ok (some uid) =>
        if uid = "" then .ok acc   -- `if not uid: continue` also skips an empty key
        else
          let slot := arp_slot_update ((clookup acc.arp_tmp uid).getD []) uid entry
          .ok { acc with arp_tmp := cset acc.arp_tmp uid slot }

/-- The `update_arp` loop over the raw `/ip/arp` records (an empty response
returns the inputs unchanged, like `if not data: return`). -/
def update_arp_loop (interfaces : Col) : List Rec → ArpAcc → Except PyErr ArpAcc
  | [], acc => .ok acc
  | e :: rest, acc =>
    match update_arp_step interfaces acc e with
    | .error err => .error err
    | .ok acc' => update_arp_loop interfaces rest acc'

/-- Lines 419-429: fill the scratch slot for `uid` from a bridge-host entry —
an already-present MAC turns both fields into `"multiple"`, otherwise the MAC
comes from the entry and the address from the MAC→IP side table, defaulting
to the empty string. -/
def bridge_slot_update (slot : Rec) (uid : String) (entry : Rec)
    (mac2ip : List (Val × Val)) : Rec :=
  let slot := rset slot "interface" (.str uid)
  if rhas slot "mac-address" then
    rset (rset slot "mac-address" (.str "multiple")) "address" (.str "multiple")
  else
    let m := from_entry entry "mac-address"
    rset (rset slot "mac-address" m) "address" ((vlookup mac2ip m).getD (.str ""))

/-- One iteration of the `update_bridge_hosts` loop body (lines 401-429):
skip local entries (`entry["local"]` raises when absent), resolve the entry's
interface key (here `entry["interface"]` is read unguarded), and fill the
scratch slot. -/
def update_bridge_step (interfaces : Col) (mac2ip : List (Val × Val)) (tmp : Col)
    (entry : Rec) : Except PyErr Col :=
  match getItem entry "local" with
  | .error e => .error e
  | .ok loc =>
    if loc.truthy then .ok tmp
    else
      match get_iface_from_entry interfaces entry with
      | .error e => .error e
      | .ok none => .ok tmp
      | .ok (some uid) =>
        if uid = "" then .ok tmp
        else .ok (cset tmp uid (bridge_slot_update ((clookup tmp uid).getD []) uid entry mac2ip))

/-- The `update_bridge_hosts` loop over the raw `/interface/bridge/host` records. -/
def update_bridge_loop (interfaces : Col) (mac2ip : List (Val × Val)) :
    List Rec → Col → Except PyErr Col
  | [], tmp => .ok tmp
  | e :: rest, tmp =>
    match update_bridge_step interfaces mac2ip tmp e with
    | .error err => .error err
    | .ok tmp' => update_bridge_loop interfaces mac2ip rest tmp'

/-- The body of the final loop of `get_interface_client` (lines 334-343): an
interface with a scratch slot gets the slot's address and mac-address copied
into `client-ip-address` / `client-mac-address` via `from_entry`; one without
is left untouched. -/
def client_fields (tmp : Col) (uid : String) (r : Rec) : Rec :=
  match clookup tmp uid with
  | none => r
  | some slot =>
    rset (rset r "client-ip-address" (from_entry slot "address"))
      "client-mac-address" (from_entry slot "mac-address")

/-- The final loop of `get_interface_client` over all interfaces. -/
def apply_client (tmp : Col) (interfaces : Col) : Col :=
  interfaces.map (fun p => (p.1, client_fields tmp p.1 p.2))

/-- The second half of `get_interface_client` (lines 330-343): the optional
`update_bridge_hosts` pass followed by the mapping onto the interfaces. -/
def client_phase2 (interfaces : Col) (bridge_data : List Rec) (acc : ArpAcc) :
    Except PyErr Col :=
  match (if acc.bridge_used then update_bridge_loop interfaces acc.mac2ip bridge_data acc.arp_tmp
         else .ok acc.arp_tmp) with
  | .error e => .error e
  | .ok tmp => .ok (apply_client tmp interfaces)

/-- `get_interface_client` (lines 315-343): reset the scratch collection; with
ARP tracking disabled force both client fields of every interface to
`"disabled"`; otherwise run `update_arp`, then `update_bridge_hosts` when a
bridge was seen, and map the scratch slots onto the interfaces.  The two raw
API responses are explicit inputs. -/
def get_interface_client (track_arp : Bool) (interfaces : Col)
    (arp_data bridge_data : List Rec) : Except PyErr Col :=
  if ¬ track_arp then
    .ok (interfaces.map (fun p =>
      (p.1, rset (rset p.2 "client-ip-address" (.str "disabled"))
              "client-mac-address" (.str "disabled"))))
  else
    match update_arp_loop interfaces arp_data ⟨[], [], false⟩ with
    | .error e => .error e
    | .ok acc => client_phase2 interfaces bridge_data acc

/-!
## NAT deduplicator

Embeds the deduplication phase of `get_nat` (lines 480-496), which runs after
`parse_api` has produced the keyed NAT collection.  `nat_uniq` maps each
display name to the first router id carrying it; every name seen twice marks
both the newcomer and the first holder for removal; removal logs once per
distinct name, suppressed across cycles through the persistent `nat_removed`
dict.
-/

/-- First loop's name extraction: `self.data["nat"][uid]["name"]` for every
entry, in order (raising `KeyError` on a record without `"name"`, exactly
where the source's loop would). -/
def natNames : Col → Except PyErr (List (String × Val))
  | [] => .ok []
  | (uid, r) :: rest =>
    match getItem r "name" with
    | .error e => .error e
    | .ok n =>
      match natNames rest with
      | .error e => .error e
      | .ok tl => .ok ((uid, n) :: tl)

/-- `nat_del[uid] = 1`: dict-key insertion, keeping first-insertion order. -/
def dinsertStr (l : List String) (x : String) : List String :=
  if x ∈ l then l else l ++ [x]

/-- `nat_uniq` lookup (a dict keyed by the name value). -/
def vslookup (l : List (Val × String)) (k : Val) : Option String :=
  (l.find? (fun p => p.1 = k)).map (·.2)

/-- The first loop of the dedup phase: build `nat_uniq` and `nat_del`.
Returns the key list of `nat_del`. -/
def build_del : List (String × Val) → List (Val × String) → List String → List String
  | [], _, del => del
  | (uid, nm) :: rest, uniq, del =>
    match vslookup uniq nm with
    | none => build_del rest (uniq ++ [(nm, uid)]) del
    | some fuid => build_del rest uniq (dinsertStr (dinsertStr del uid) fuid)

/-- Name of a uid among the extracted `(uid, name)` pairs (every uid passed in
comes from the collection, so the default is unreachable). -/
def nameOf (pairs : List (String × Val)) (uid : String) : Val :=
  ((pairs.find? (fun p => p.1 = uid)).map (·.2)).getD (.str "")

/-- The second loop: for every uid in `nat_del`, log its name unless already
in the persistent `nat_removed` dict, and record the name there.  Returns the
updated `nat_removed` key list and the list of logged names. -/
def process_del (pairs : List (String × Val)) :
    List String → List Val → List Val → (List Val × List Val)
  | [], removed, logs => (removed, logs)
  | uid :: rest, removed, logs =>
    let nm := nameOf pairs uid
    if nm ∈ removed then process_del pairs rest removed logs
    else process_del pairs rest (removed ++ [nm]) (logs ++ [nm])

/-- The dedup phase of `get_nat`: given the parsed NAT collection and the
persistent `nat_removed` key list, return the surviving collection (all
entries of `nat_del` deleted, order preserved), the updated `nat_removed`
and the names logged this cycle. -/
def get_nat_dedup (nat : Col) (nat_removed : List Val) :
    Except PyErr (Col × List Val × List Val) :=
  match natNames nat with
  | .error e => .error e
  | .ok pairs =>
    let del := build_del pairs [] []
    .ok (nat.filter (fun p => ¬ del.contains p.1),
         (process_del pairs del nat_removed []).1,
         (process_del pairs del nat_removed []).2)

/-- A NAT record whose `"name"` is the `val_proc`-combined display name
`protocol ++ ":" ++ dst-port` (the `{"action": "combine"}` post-processing
`parse_api` applies; the helper itself is not under `src/`). -/
def nameIsDerived (r : Rec) : Bool :=
  match rlookup r "protocol", rlookup r "dst-port" with
  | some (.str p), some (.str d) => rlookup r "name" = some (.str (p ++ ":" ++ d))
  | _, _ => false

/-!
## DHCP / host identity merger

Embeds `process_host` (lines 765-829) over the already-fetched collections
`self.data["host"/"dhcp"/"arp"/"dns"]`.  The boundary calls are parameters:
`ping` stands for `self.api.arp_ping` and `now` for `utcnow()`.
-/

/-- The copy loop used when creating a Host from a DHCP lease or ARP entry:
`for key in ["address", "mac-address", "interface"]`, copying `vals[key]`
(a `KeyError` if the source record lacks it) when the Host field is missing
or `"unknown"`. -/
def host_copy_keys (vals : Rec) : List String → Rec → Except PyErr Rec
  | [], r => .ok r
  | k :: ks, r =>
    if ¬ rhas r k ∨ rlookup r k = some (.str "unknown") then
      match getItem vals k with
      | .error e => .error e
      | .ok v => host_copy_keys vals ks (rset r k v)
    else host_copy_keys vals ks r

/-- "Add hosts from DHCP" / "Add hosts from ARP": every source uid not yet in
the Host collection gets a fresh record with its `source` tag and the three
copied fields. -/
def host_add_from : Col → String → Col → Except PyErr Col
  | [], _, host => .ok host
  | (uid, vals) :: rest, tag, host =>
    if chas host uid then host_add_from rest tag host
    else
      match host_copy_keys vals ["address", "mac-address", "interface"] [("source", .str tag)] with
      | .error e => .error e
      | .ok r => host_add_from rest tag (cset host uid r)

/-- The backfill table, written exactly as the source writes it:
`zip` of six keys against five defaults.  Like Python's `zip`, `List.zip`
truncates to the shorter list, so `"last-seen"` is paired with `False` and
`"available"` is paired with nothing. -/
def host_default_pairs : List (String × Val) :=
  List.zip ["address", "mac-address", "interface", "hostname", "last-seen", "available"]
    [Val.str "unknown", Val.str "unknown", Val.str "unknown", Val.str "unknown", Val.bool false]

/-- "Add missing default values": set each listed default when the key is
absent. -/
def backfill : List (String × Val) → Rec → Rec
  | [], r => r
  | (k, d) :: ks, r => backfill ks (if rhas r k then r else rset r k d)

/-- Python `str.split(sep)` with an explicit one-character separator
(`"a//b".split("/") == ["a", "", "b"]`, `"".split("/") == [""]`). -/
def splitAux (sep : Char) : List Char → List Char → List String
  | [], acc => [String.mk acc.reverse]
  | c :: cs, acc =>
    if c = sep then String.mk acc.reverse :: splitAux sep cs []
    else splitAux sep cs (c :: acc)

/-- Python `s.split(sep)` for a string. -/
def pySplit (sep : Char) (s : String) : List String :=
  splitAux sep s.toList []

/-- `dns_vals["name"].split('.')[0]`: the first dot-separated label; `.split`
on a non-string raises `AttributeError`. -/
def firstLabel (v : Val) : Except PyErr Val :=
  match v with
  | .str s => .ok (.str ((pySplit '.' s).headD ""))
  | _ => .error .attributeError

/-- The static-DNS scan (lines 806-809): first record whose `"address"` equals
the host's address wins (`break`); its `"name"` is returned.  The access
`dns_vals["address"]` raises when a record lacks it. -/
def dns_scan : Col → Val → Except PyErr (Option Val)
  | [], _ => .ok none
  | (_, dr) :: rest, a =>
    match getItem dr "address" with
    | .error e => .error e
    | .ok da =>
      if da = a then
        match getItem dr "name" with
        | .error e => .error e
        | .ok dn => .ok (some dn)
      else dns_scan rest a

/-- The DNS step of the "Process hosts" loop body (lines 803-810): when the
host's address is resolved, scan the static-DNS table and overwrite the
hostname with the first dot-separated label of the matching record's name. -/
def resolve_dns_step (dns : Col) (r1 : Rec) (addr : Val) : Except PyErr Rec :=
  if addr ≠ .str "unknown" then
    match dns_scan dns addr with
    | .error e => .error e
    | .ok none => .ok r1
    | .ok (some dn) =>
      match firstLabel dn with
      | .error e => .error e
      | .ok lbl => .ok (rset r1 "hostname" lbl)
  else .ok r1

/-- The DHCP fallback chain of the loop body (lines 811-820): while the
hostname is still `"unknown"`, take the lease's comment when non-empty, else
its host-name when not `"unknown"`, else the host's own key. -/
def resolve_dhcp_chain (dhcp : Col) (uid : String) (r2 : Rec) : Except PyErr Rec :=
  match getItem r2 "hostname" with
  | .error e => .error e
  | .ok hn2 =>
    if hn2 = .str "unknown" ∧ chas dhcp uid then
      let dr := (clookup dhcp uid).getD []
      match getItem dr "comment" with
      | .error e => .error e
      | .ok cm =>
        if cm ≠ .str "" then .ok (rset r2 "hostname" cm)
        else
          match getItem dr "host-name" with
          | .error e => .error e
          | .ok hnm =>
            if hnm ≠ .str "unknown" then .ok (rset r2 "hostname" hnm)
            else .ok (rset r2 "hostname" (.str uid))
    else if hn2 = .str "unknown" then .ok (rset r2 "hostname" (.str uid))
    else .ok r2

/-- The availability tail of the loop body (lines 821-829): probe when address
and interface are resolved, refresh `last-seen` when `host[uid]["available"]`
is truthy — an access that raises `KeyError` when the field was never set. -/
def resolve_avail (ping : Val → Val → Bool) (now : Val) (host : Col) (uid : String)
    (r3 : Rec) : Except PyErr Col :=
  match getItem r3 "address", getItem r3 "interface" with
  | .error e, _ => .error e
  | .ok _, .error e => .error e
  | .ok addr, .ok itf =>
    let r4 :=
      if addr ≠ .str "unknown" ∧ itf ≠ .str "unknown" then
        rset r3 "available" (.bool (ping addr itf))
      else r3
    match getItem r4 "available" with
    | .error e => .error e
    | .ok av =>
      let r5 := if av.truthy then rset r4 "last-seen" now else r4
      .ok (cset host uid r5)

/-- The body of the "Process hosts" loop (lines 794-829) after the backfill,
on the backfilled record `r1`: resolve the hostname through the
DNS / comment / host-name / key chain, then run the availability tail. -/
def resolve_host_core (dhcp dns : Col) (ping : Val → Val → Bool) (now : Val)
    (host : Col) (uid : String) (r1 : Rec) : Except PyErr Col :=
  match getItem r1 "hostname" with
  | .error e => .error e
  | .ok hn =>
    match (if hn = .str "unknown" then
             match getItem r1 "address" with
             | .error e => .error e
             | .ok addr =>
               match resolve_dns_step dns r1 addr with
               | .error e => .error e
               | .ok r2 => resolve_dhcp_chain dhcp uid r2
           else .ok r1 : Except PyErr Rec) with
    | .error e => .error e
    | .ok r3 => resolve_avail ping now host uid r3

/-- The full loop body for one uid: backfill the (truncated) defaults, then
run the resolution core. -/
def resolve_host (dhcp dns : Col) (ping : Val → Val → Bool) (now : Val)
    (host : Col) (uid : String) : Except PyErr Col :=
  resolve_host_core dhcp dns ping now host uid
    (backfill host_default_pairs ((clookup host uid).getD []))

/-- The "Process hosts" loop over the key snapshot taken at loop entry. -/
def process_host_loop (dhcp dns : Col) (ping : Val → Val → Bool) (now : Val) :
    List String → Col → Except PyErr Col
  | [], host => .ok host
  | uid :: rest, host =>
    match resolve_host dhcp dns ping now host uid with
    | .error e => .error e
    | .ok h' => process_host_loop dhcp dns ping now rest h'

/-- `process_host` (lines 765-829): add hosts from DHCP, then from ARP, then
process every host. -/
def process_host (host dhcp arp dns : Col) (ping : Val → Val → Bool) (now : Val) :
    Except PyErr Col :=
  match host_add_from dhcp "dhcp" host with
  | .error e => .error e
  | .ok h1 =>
    match host_add_from arp "arp" h1 with
    | .error e => .error e
    | .ok h2 => process_host_loop dhcp dns ping now (h2.map Prod.fst) h2

/-!
## DHCP network mapper (`get_dhcp`, lines 705-760)

`parse_api` lives in the repository's `helper` module, which is not under
`src/`; the fragment needed here is modelled from the spec (§4.1, §4.2).
-/

/-- One field specification of the `vals` list: output name, source field and
the default used when the source field is absent. -/
structure FieldSpec where
  name : String
  source : String
  default : Val
deriving DecidableEq, Repr

/-- Modelled from the spec (§4.1, the Field Mapper): apply the `vals`
specifications to one raw record, overlaying the existing record field by
field — the source value when present, the declared default otherwise.
(The boolean/`reverse` coercions and `default_val` chains of the full helper
are not needed by the dhcp-network claims and are not modelled.) -/
def map_record (vals : List FieldSpec) (existing raw : Rec) : Rec :=
  vals.foldl (fun r spec =>
    match rlookup raw spec.source with
    | some v => rset r spec.name v
    | none => rset r spec.name spec.default) existing

/-- Modelled from the spec (§4.1, the "ensure" list): guarantee a field exists
in the output, "without overwriting it if the record already carries a value
for that field". -/
def ensure_record (ens : List FieldSpec) (r : Rec) : Rec :=
  ens.foldl (fun r spec => if rhas r spec.name then r else rset r spec.name spec.default) r

/-- Modelled from the spec (§4.1-§4.2): `parse_api` merging a raw source
sequence into the keyed collection — a record lacking the key field is
skipped; otherwise its mapped fields overlay the existing entry; entries not
re-supplied by the source are retained as-is.  (Keys are strings in every
collection this development touches; a raw record whose key field holds a
non-string scalar is out of the spec's model and is skipped.) -/
def parse_api_model (data : Col) (source : List Rec) (key : String)
    (vals ens : List FieldSpec) : Col :=
  source.foldl (fun col raw =>
    match rlookup raw key with
    | some (.str k) =>
      let existing := (clookup col k).getD []
      cset col k (ensure_record ens (map_record vals existing raw))
    | _ => col) data

/-- The `vals` list of the `/ip/dhcp-server/network` parse (lines 712-718).
A spec without a declared default (here the key field `"address"`, which is
always present in a record that was not skipped) uses the helper's
empty-string default. -/
def dhcpNetworkVals : List FieldSpec :=
  [⟨"address", "address", .str ""⟩, ⟨"gateway", "gateway", .str ""⟩,
   ⟨"netmask", "netmask", .str ""⟩, ⟨"dns-server", "dns-server", .str ""⟩,
   ⟨"domain", "domain", .str ""⟩]

/-- The `ensure_vals` list of the same parse (lines 719-722). -/
def dhcpNetworkEnsure : List FieldSpec :=
  [⟨"address", "address", .str ""⟩, ⟨"IPv4Network", "IPv4Network", .str ""⟩]

/-- The stdlib `IPv4Network(...)` constructor (outside this repository),
modelled as tagging the address value it was built from. -/
def ipv4NetworkOf (v : Val) : Val :=
  .net (match v with | .str s => s | _ => "")

/-- One iteration of the caching loop of `get_dhcp` (lines 725-727): parse
the CIDR only when the entry's `IPv4Network` field still holds the
empty-string default.  `vals["IPv4Network"]` is a direct index and raises
when the field is absent. -/
def dhcp_network_step (col : Col) (uid : String) : Except PyErr Col :=
  let r := (clookup col uid).getD []
  match getItem r "IPv4Network" with
  | .error e => .error e
  | .ok cur =>
    if cur = .str "" then
      match getItem r "address" with
      | .error e => .error e
      | .ok a => .ok (cset col uid (rset r "IPv4Network" (ipv4NetworkOf a)))
    else .ok col

/-- The caching loop of `get_dhcp` over the parsed dhcp-network keys. -/
def dhcp_network_loop : List String → Col → Except PyErr Col
  | [], col => .ok col
  | uid :: rest, col =>
    match dhcp_network_step col uid with
    | .error e => .error e
    | .ok col2 => dhcp_network_loop rest col2

/-- The dhcp-network part of `get_dhcp` (lines 708-727): parse, then cache the
parsed networks. -/
def get_dhcp_network (data : Col) (source : List Rec) : Except PyErr Col :=
  let col := parse_api_model data source "address" dhcpNetworkVals dhcpNetworkEnsure
  dhcp_network_loop (col.map Prod.fst) col

/-- The final loop of `get_dhcp` (lines 758-760):
`self.data["dhcp"][uid]["interface"] = self.data["dhcp-server"][lease["server"]]["interface"]` —
both the server lookup and the `"interface"` access are unguarded and raise
`KeyError` on a miss. -/
def dhcp_lease_interface_loop (servers : Col) : List String → Col → Except PyErr Col
  | [], dhcp => .ok dhcp
  | uid :: rest, dhcp =>
    let r := (clookup dhcp uid).getD []
    match getItem r "server" with
    | .error e => .error e
    | .ok sv =>
      match (match sv with
             | .str s =>
               match clookup servers s with
               | some sr => Except.ok sr
               | none => Except.error (PyErr.keyError s)
             | _ => Except.error (PyErr.keyError "server")) with
      | .error e => .error e
      | .ok sr =>
        match getItem sr "interface" with
        | .error e => .error e
        | .ok itf => dhcp_lease_interface_loop servers rest (cset dhcp uid (rset r "interface" itf))

/-!
## Traffic/queue unit converter (`get_queue`, lines 608-669, and the tail of
`async_update`, lines 187-211)
-/

/-- Auxiliary digit accumulator for Python `int(...)`. -/
def readDigitsAux : List Char → Nat → Option Nat
  | [], acc => some acc
  | c :: cs, acc =>
    if '0' ≤ c ∧ c ≤ '9' then readDigitsAux cs (acc * 10 + (c.toNat - '0'.toNat))
    else none

/-- Python `int(s)` on a plain decimal numeral (an optional sign followed by
digits); anything else raises `ValueError`.  (Surrounding whitespace and
underscore separators, which Python also accepts, do not occur in rate specs
and are not modelled.) -/
def pyInt (s : String) : Except PyErr Int :=
  match s.toList with
  | [] => .error .valueError
  | '-' :: cs =>
    match cs, readDigitsAux cs 0 with
    | _ :: _, some n => .ok (-(n : Int))
    | _, _ => .error .valueError
  | '+' :: cs =>
    match cs, readDigitsAux cs 0 with
    | _ :: _, some n => .ok (n : Int)
    | _, _ => .error .valueError
  | cs =>
    match readDigitsAux cs 0 with
    | some n => .ok (n : Int)
    | none => .error .valueError

/-- `value.split('/')` on a record field: `AttributeError` on a non-string. -/
def pySplitSlash (v : Val) : Except PyErr (List String) :=
  match v with
  | .str s => .ok (pySplit '/' s)
  | _ => .error .attributeError

/-- Tuple unpacking `a, b = lst`: `ValueError` unless exactly two elements. -/
def unpack2 {α : Type} : List α → Except PyErr (α × α)
  | [a, b] => .ok (a, b)
  | _ => .error .valueError

/-- Python `round(...)`: round half to even.  The CPython arithmetic is on
floats; it is modelled here with exact rationals (no claim in this
development depends on float rounding artefacts). -/
def pyRound (q : Rat) : Int :=
  let f := ⌊q⌋
  let r := q - f
  if r < 1/2 then f
  else if r > 1/2 then f + 1
  else if f % 2 = 0 then f else f + 1

/-- `_get_traffic_type_and_div` (lines 85-100). -/
def get_traffic_type_and_div (traffic_type : String) : String × Rat :=
  if traffic_type = "Kbps" then ("Kbps", 1/1000)
  else if traffic_type = "Mbps" then ("Mbps", 1/1000000)
  else if traffic_type = "B/s" then ("B/s", 1/8)
  else if traffic_type = "KB/s" then ("KB/s", 1/8000)
  else if traffic_type = "MB/s" then ("MB/s", 1/8000000)
  else ("bps", 1)

/-- `int(x) for x in record[fld].split('/')` followed by two-tuple unpacking:
CPython materialises the whole comprehension (converting every part) before
unpacking, so a non-integer part raises before a wrong part count does. -/
def split_two_ints (r : Rec) (fld : String) : Except PyErr (Int × Int) :=
  match getItem r fld with
  | .error e => .error e
  | .ok v =>
    match pySplitSlash v with
    | .error e => .error e
    | .ok parts =>
      match parts.mapM pyInt with
      | .error e => .error e
      | .ok ints => unpack2 ints

/-- One upload/download derivation (e.g. `upload-max-limit` /
`download-max-limit` from `max-limit`): on an exception, the record is
returned as mutated so far (Python mutates `self.data` in place). -/
def derive_pair (ttype : String) (tdiv : Rat) (fld upFld downFld : String)
    (r : Rec) : Rec × Option PyErr :=
  match split_two_ints r fld with
  | .error e => (r, some e)
  | .ok (u, d) =>
    let r := rset r upFld (.str (toString (pyRound (u * tdiv)) ++ " " ++ ttype))
    let r := rset r downFld (.str (toString (pyRound (d * tdiv)) ++ " " ++ ttype))
    (r, none)

/-- The `burst-time` split (lines 667-669): a plain two-way string split. -/
def derive_burst_time (r : Rec) : Rec × Option PyErr :=
  match getItem r "burst-time" with
  | .error e => (r, some e)
  | .ok v =>
    match pySplitSlash v with
    | .error e => (r, some e)
    | .ok parts =>
      match unpack2 parts with
      | .error e => (r, some e)
      | .ok (u, d) =>
        (rset (rset r "upload-burst-time" (.str u)) "download-burst-time" (.str d), none)

/-- The derived-field computation of `get_queue` for one record
(lines 638-669), stopping at the first exception with the fields set so far. -/
def derive_queue_rec (ttype : String) (tdiv : Rat) (r : Rec) : Rec × Option PyErr :=
  match derive_pair ttype tdiv "max-limit" "upload-max-limit" "download-max-limit" r with
  | (r, some e) => (r, some e)
  | (r, none) =>
    match derive_pair ttype tdiv "limit-at" "upload-limit-at" "download-limit-at" r with
    | (r, some e) => (r, some e)
    | (r, none) =>
      match derive_pair ttype tdiv "burst-limit" "upload-burst-limit" "download-burst-limit" r with
      | (r, some e) => (r, some e)
      | (r, none) =>
        match derive_pair ttype tdiv "burst-threshold" "upload-burst-threshold"
            "download-burst-threshold" r with
        | (r, some e) => (r, some e)
        | (r, none) => derive_burst_time r

/-- The `get_queue` loop over the parsed queue collection: each record's
mutations land in the collection before an exception stops the loop;
records after the failing one stay unprocessed. -/
def get_queue_derive (ttype : String) (tdiv : Rat) :
    List String → Col → Col × Option PyErr
  | [], q => (q, none)
  | uid :: rest, q =>
    let r := (clookup q uid).getD []
    match derive_queue_rec ttype tdiv r with
    | (r', some e) => (cset q uid r', some e)
    | (r', none) => get_queue_derive ttype tdiv rest (cset q uid r')

/-- Outcome of the tail of one `async_update` cycle (lines 187-211):
`get_queue` is the last executor job before `async_dispatcher_send` and
`self.lock.release()`; an exception raised inside it propagates out of
`async_update`, so neither the update signal is dispatched nor the lock
released. -/
structure CycleTail where
  queue : Col
  err : Option PyErr
  notified : Bool
  lock_released : Bool
deriving DecidableEq, Repr

/-- The tail of `async_update` from the `get_queue` step onwards, over the
already-parsed queue collection. -/
def async_update_queue_tail (traffic_option : String) (queue : Col) : CycleTail :=
  let (t, d) := get_traffic_type_and_div traffic_option
  let (q', e?) := get_queue_derive t d (queue.map Prod.fst) queue
  ⟨q', e?, e?.isNone, e?.isNone⟩

/-!
## Claim-side reference functions and predicates
-/

/-- A "valid" raw ARP entry: its `"invalid"` field is present and falsy. -/
def entry_live (e : Rec) : Bool :=
  match rlookup e "invalid" with
  | some v => !v.truthy
  | none => false

/-- A raw entry that carries an `"interface"` field, is not on the bridge,
and resolves to the (non-empty) interface key `K`. -/
def entry_resolves (interfaces : Col) (e : Rec) (K : String) : Bool :=
  rhas e "interface" &&
  !(decide (rlookup e "interface" = some (.str "bridge"))) &&
  decide (get_iface_from_entry interfaces e = .ok (some K)) &&
  !(decide (K = ""))

/-- The scratch slot for `K` exists with both client keys occupied. -/
def slotKeys (tmp : Col) (K : String) : Prop :=
  ∃ s, clookup tmp K = some s ∧ rhas s "mac-address" = true ∧ rhas s "address" = true

/-- The scratch slot for `K` carries the `"multiple"` sentinel in both fields. -/
def slotMult (tmp : Col) (K : String) : Prop :=
  ∃ s, clookup tmp K = some s ∧ rlookup s "mac-address" = some (.str "multiple") ∧
    rlookup s "address" = some (.str "multiple")

/-- First static-DNS record whose `"address"` equals `a`, returning its
`"name"` (reference formulation of the scan). -/
def dnsFirstMatch : Col → Val → Option Val
  | [], _ => none
  | (_, dr) :: rest, a =>
    if rlookup dr "address" = some a then rlookup dr "name" else dnsFirstMatch rest a

/-- Reference first-label extraction (total; only applied to strings under the
well-formedness hypotheses). -/
def firstLabelRef (v : Val) : Val :=
  match v with
  | .str s => .str ((pySplit '.' s).headD "")
  | _ => v

/-- The comment / host-name / key fallback chain shared by both hostname
formulations. -/
def dhcpChainRef (dhcp : Col) (uid : String) : Val :=
  match clookup dhcp uid with
  | none => .str uid
  | some dr =>
    let cm := (rlookup dr "comment").getD (.str "")
    if cm ≠ .str "" then cm
    else
      let hm := (rlookup dr "host-name").getD (.str "unknown")
      if hm ≠ .str "unknown" then hm else .str uid

/-- The hostname resolution rule exactly as claim C5 states it: a static DNS
record whose address equals the host's address yields the DNS name's first
dot-separated label, taking precedence over comment and host-name; otherwise
the lease's comment when non-empty; otherwise its host-name when not
`"unknown"`; otherwise the host's own key. -/
def hostnameClaim (dhcp dns : Col) (uid : String) (a : Val) : Val :=
  match dnsFirstMatch dns a with
  | some nm => firstLabelRef nm
  | none => dhcpChainRef dhcp uid

/-- The amended hostname rule (what the code computes): the DNS step applies
only when the host's address is itself resolved, and each later step applies
only while the hostname is still literally `"unknown"` — in particular a DNS
label that is itself `"unknown"` falls through to the comment chain. -/
def hostnameRef (dhcp dns : Col) (uid : String) (a : Val) : Val :=
  let d1 :=
    if a ≠ .str "unknown" then
      match dnsFirstMatch dns a with
      | some nm => firstLabelRef nm
      | none => .str "unknown"
    else .str "unknown"
  if d1 ≠ .str "unknown" then d1 else dhcpChainRef dhcp uid

/-- Well-formed static-DNS record: an `"address"` field and a string `"name"`
(what `parse_api` produces for `/ip/dns/static`, lines 690-700). -/
def dnsWF (r : Rec) : Bool :=
  (rlookup r "address").isSome &&
  (match rlookup r "name" with | some (.str _) => true | _ => false)

/-- Well-formed DHCP lease record: `"comment"` and `"host-name"` fields
present (their `parse_api` defaults are `""` and `"unknown"`, lines 746-750). -/
def dhcpWF (r : Rec) : Bool :=
  (rlookup r "comment").isSome && (rlookup r "host-name").isSome

/-!
## Concrete inputs for the closed theorems
-/

/-- A single interface, key and display name `ether1`. -/
def ifacesEx : Col := [("ether1", [("name", Val.str "ether1")])]

/-- One ARP entry on the bridge: MAC `AA:…`, address `10.0.0.5`. -/
def arpBridgeEx : List Rec :=
  [[("invalid", Val.bool false), ("interface", Val.str "bridge"),
    ("mac-address", Val.str "AA:AA:AA:AA:AA:AA"), ("address", Val.str "10.0.0.5")]]

/-- One non-local bridge-host entry on `ether1` with a different MAC `BB:…`. -/
def bridgeHostEx : List Rec :=
  [[("local", Val.bool false), ("interface", Val.str "ether1"),
    ("mac-address", Val.str "BB:BB:BB:BB:BB:BB")]]

/-- A DHCP lease collection with one lease still waiting for an address:
`parse_api` gives `"address"` its declared `"unknown"` default (line 745) and
the other fields their defaults. -/
def dhcpLeaseEx : Col :=
  [("00:11:22:33:44:55",
    [("mac-address", Val.str "00:11:22:33:44:55"), ("address", Val.str "unknown"),
     ("host-name", Val.str "unknown"), ("status", Val.str "waiting"),
     ("last-seen", Val.str "unknown"), ("server", Val.str "unknown"),
     ("comment", Val.str ""), ("interface", Val.str ""), ("available", Val.bool false)])]

/-- A previously-seen host (its `available` flag persisted from an earlier
cycle) whose address is unresolved. -/
def hostEx5 : Col := [("AA:BB:CC:DD:EE:FF", [("available", Val.bool false)])]

/-- A static-DNS collection whose single record carries the literal address
string `"unknown"`. -/
def dnsEx5 : Col :=
  [("mypc.lan", [("name", Val.str "mypc.lan"), ("address", Val.str "unknown")])]

/-- Two destination-NAT rules colliding on display name `tcp:80` plus one
rule with a distinct name. -/
def natEx : Col :=
  [("*1", [("name", Val.str "tcp:80"), ("protocol", Val.str "tcp"), ("dst-port", Val.str "80")]),
   ("*2", [("name", Val.str "tcp:80"), ("protocol", Val.str "tcp"), ("dst-port", Val.str "80")]),
   ("*3", [("name", Val.str "udp:53"), ("protocol", Val.str "udp"), ("dst-port", Val.str "53")])]

/-- The `(uid, name)` pairs the dedup extracts from `natEx`. -/
def natPairsEx : List (String × Val) :=
  [("*1", Val.str "tcp:80"), ("*2", Val.str "tcp:80"), ("*3", Val.str "udp:53")]

/-- The surviving NAT collection after deduplicating `natEx`. -/
def natDedupKept : Col :=
  [("*3", [("name", Val.str "udp:53"), ("protocol", Val.str "udp"), ("dst-port", Val.str "53")])]

/-- A parsed queue collection: `q1` has a well-formed `max-limit` but a
three-part `limit-at`; `q2` is fully well-formed. -/
def queueEx : Col :=
  [("q1", [("name", Val.str "q1"), ("max-limit", Val.str "1000000/2000000"),
           ("limit-at", Val.str "0/0/0"), ("burst-limit", Val.str "0/0"),
           ("burst-threshold", Val.str "0/0"), ("burst-time", Val.str "0s/0s")]),
   ("q2", [("name", Val.str "q2"), ("max-limit", Val.str "0/0"),
           ("limit-at", Val.str "0/0"), ("burst-limit", Val.str "0/0"),
           ("burst-threshold", Val.str "0/0"), ("burst-time", Val.str "0s/0s")])]

/-- One raw `/ip/dhcp-server/network` record. -/
def dhcpNetworkSourceEx : List Rec :=
  [[("address", Val.str "192.168.1.0/24"), ("gateway", Val.str "192.168.1.1")]]

/-- The dhcp-network collection obtained from `dhcpNetworkSourceEx` on a first
run: every spec field defaulted, and the parsed network cached. -/
def dhcpNetworkColEx : Col :=
  [("192.168.1.0/24",
    [("address", Val.str "192.168.1.0/24"), ("gateway", Val.str "192.168.1.1"),
     ("netmask", Val.str ""), ("dns-server", Val.str ""), ("domain", Val.str ""),
     ("IPv4Network", Val.net "192.168.1.0/24")])]

/-- A queue whose `max-limit` itself is malformed (three slash-parts). -/
def queueBadEx : Col := [("qb", [("name", Val.str "qb"), ("max-limit", Val.str "1/2/3")])]

/-- A valid ARP entry on `ether1`. -/
def arpEntry1 : Rec :=
  [("invalid", Val.bool false), ("interface", Val.str "ether1"),
   ("mac-address", Val.str "AA:AA:AA:AA:AA:AA"), ("address", Val.str "10.0.0.1")]

/-- A second valid ARP entry on `ether1` with a different MAC and address. -/
def arpEntry2 : Rec :=
  [("invalid", Val.bool false), ("interface", Val.str "ether1"),
   ("mac-address", Val.str "CC:CC:CC:CC:CC:CC"), ("address", Val.str "10.0.0.2")]

/-- The interface collection after two ARP entries collided on `ether1`. -/
def multipleRes : Col :=
  [("ether1", [("name", Val.str "ether1"), ("client-ip-address", Val.str "multiple"),
    ("client-mac-address", Val.str "multiple")])]

/-- The interface collection after the bridge cross-table scenario of C2. -/
def bridgeJoinRes : Col :=
  [("ether1", [("name", Val.str "ether1"), ("client-ip-address", Val.str ""),
    ("client-mac-address", Val.str "BB:BB:BB:BB:BB:BB")])]

/-!
## Lemmas about the dict operations
-/

theorem alookup_nil {α : Type} (k : String) : alookup ([] : List (String × α)) k = none := rfl

theorem alookup_cons {α : Type} (a : String) (b : α) (t : List (String × α)) (k : String) :
    alookup ((a, b) :: t) k = if a = k then some b else alookup t k := by
  by_cases h : a = k <;> simp [alookup, List.find?, h]

theorem alookup_aset_self {α : Type} (l : List (String × α)) (k : String) (v : α) :
    alookup (aset l k v) k = some v := by
  induction l with
  | nil => simp [aset, alookup, List.find?]
  | cons p t ih =>
    obtain ⟨a, b⟩ := p
    by_cases h : a = k
    · simp [aset, h, alookup_cons]
    · simp [aset, h, alookup_cons, ih]

theorem alookup_aset_other {α : Type} (l : List (String × α)) (k k' : String) (v : α)
    (h : k' ≠ k) : alookup (aset l k v) k' = alookup l k' := by
  have hk : ¬ (k = k') := fun hh => h hh.symm
  induction l with
  | nil => simp [aset, alookup_cons, hk, alookup_nil]
  | cons p t ih =>
    obtain ⟨a, b⟩ := p
    by_cases ha : a = k
    · subst ha
      simp [aset, alookup_cons, hk]
    · simp only [aset, if_neg ha]
      rw [alookup_cons, alookup_cons]
      by_cases ha' : a = k'
      · simp [ha']
      · simp [ha', ih]

theorem aset_keys {α : Type} (l : List (String × α)) (k : String) (v : α) :
    (aset l k v).map Prod.fst = if ahas l k then l.map Prod.fst else l.map Prod.fst ++ [k] := by
  induction l with
  | nil => simp [aset, ahas, alookup]
  | cons p t ih =>
    obtain ⟨a, b⟩ := p
    by_cases h : a = k
    · simp [aset, h, ahas, alookup_cons]
    · simp only [aset, if_neg h, List.map_cons]
      rw [ih]
      by_cases ht : ahas t k
      · simp [ahas, alookup_cons, h, ht] at *
        simp [ht]
      · simp [ahas, alookup_cons, h] at ht ⊢
        simp [ht]

theorem ahas_of_alookup_eq_some {α : Type} {l : List (String × α)} {k : String} {v : α}
    (h : alookup l k = some v) : ahas l k = true := by
  simp [ahas, h]

theorem mem_keys_of_alookup_eq_some {α : Type} {l : List (String × α)} {k : String} {v : α}
    (h : alookup l k = some v) : k ∈ l.map Prod.fst := by
  induction l with
  | nil => simp [alookup] at h
  | cons p t ih =>
    obtain ⟨a, b⟩ := p
    rw [alookup_cons] at h
    by_cases ha : a = k
    · simp [ha]
    · simp only [if_neg ha] at h
      simp [ih h]

theorem alookup_isSome_of_mem {α : Type} {l : List (String × α)} {k : String}
    (h : k ∈ l.map Prod.fst) : (alookup l k).isSome = true := by
  induction l with
  | nil => simp at h
  | cons p t ih =>
    obtain ⟨a, b⟩ := p
    rw [alookup_cons]
    by_cases ha : a = k
    · simp [ha]
    · simp only [if_neg ha]
      rcases List.mem_cons.mp h with h' | h'


      · exact absurd h'.symm (by simpa using ha)
      · exact ih h'

theorem alookup_map_snd {α β : Type} (l : List (String × α)) (g : String → α → β) (k : String) :
    alookup (l.map (fun p => (p.1, g p.1 p.2))) k = (alookup l k).map (g k) := by
  induction l with
  | nil => simp [alookup]
  | cons p t ih =>
    obtain ⟨a, b⟩ := p
    by_cases h : a = k
    · subst h
      simp [alookup_cons]
    · simp [alookup_cons, h, ih]

theorem rlookup_rset_self (r : Rec) (k : String) (v : Val) :
    rlookup (rset r k v) k = some v :=
  alookup_aset_self r k v

theorem rlookup_rset_other (r : Rec) (k k' : String) (v : Val) (h : k' ≠ k) :
    rlookup (rset r k v) k' = rlookup r k' :=
  alookup_aset_other r k k' v h

theorem rhas_rset_self (r : Rec) (k : String) (v : Val) : rhas (rset r k v) k = true := by
  simp [rhas, ahas, alookup_aset_self]

theorem rhas_rset_other (r : Rec) (k k' : String) (v : Val) (h : k' ≠ k) :
    rhas (rset r k v) k' = rhas r k' := by
  simp [rhas, ahas, alookup_aset_other _ _ _ _ h]

/-!
## ARP/bridge resolver lemmas
-/

theorem find_iface_mem {I : Col} {w : Val} {K : String}
    (h : find_iface I w = .ok (some K)) : K ∈ I.map Prod.fst := by
  induction I with
  | nil => simp [find_iface] at h
  | cons p t ih =>
    obtain ⟨uid, r⟩ := p
    simp only [find_iface] at h
    cases hg : getItem r "name" with
    | error e => rw [hg] at h; cases h
    | ok n =>
      rw [hg] at h
      by_cases hn : n = w
      · simp [hn] at h
        subst h
        simp
      · simp only [if_neg hn] at h
        simp [ih h]

/-- After a non-bridge ARP write, the slot's mac and address keys are
occupied. -/
theorem arp_slot_update_keys (slot : Rec) (uid : String) (entry : Rec) :
    rhas (arp_slot_update slot uid entry) "mac-address" = true ∧
    rhas (arp_slot_update slot uid entry) "address" = true := by
  simp only [arp_slot_update]
  constructor
  · rw [rhas_rset_other _ _ _ _ (by decide)]
    exact rhas_rset_self _ _ _
  · exact rhas_rset_self _ _ _

/-- A non-bridge ARP write over an already-occupied slot yields the
`"multiple"` sentinel in both fields. -/
theorem arp_slot_update_mult (slot : Rec) (uid : String) (entry : Rec)
    (hmac : rhas slot "mac-address" = true) (haddr : rhas slot "address" = true) :
    rlookup (arp_slot_update slot uid entry) "mac-address" = some (.str "multiple") ∧
    rlookup (arp_slot_update slot uid entry) "address" = some (.str "multiple") := by
  simp only [arp_slot_update]
  have hm1 : rhas (rset slot "interface" (.str uid)) "mac-address" = true := by
    rw [rhas_rset_other _ _ _ _ (by decide)]; exact hmac
  have ha1 : rhas (rset (rset slot "interface" (.str uid)) "mac-address" (.str "multiple"))
      "address" = true := by
    rw [rhas_rset_other _ _ _ _ (by decide), rhas_rset_other _ _ _ _ (by decide)]
    exact haddr
  rw [hm1]
  simp only [if_true]
  rw [ha1]
  simp only [if_true]
  constructor
  · rw [rlookup_rset_other _ _ _ _ (by decide)]
    exact rlookup_rset_self _ _ _
  · exact rlookup_rset_self _ _ _

/-- A bridge-host write over a slot with an occupied MAC key yields the
`"multiple"` sentinel in both fields. -/
theorem bridge_slot_update_mult (slot : Rec) (uid : String) (entry : Rec)
    (mac2ip : List (Val × Val)) (hmac : rhas slot "mac-address" = true) :
    rlookup (bridge_slot_update slot uid entry mac2ip) "mac-address" = some (.str "multiple") ∧
    rlookup (bridge_slot_update slot uid entry mac2ip) "address" = some (.str "multiple") := by
  simp only [bridge_slot_update]
  have hm1 : rhas (rset slot "interface" (.str uid)) "mac-address" = true := by
    rw [rhas_rset_other _ _ _ _ (by decide)]; exact hmac
  rw [hm1]
  simp only [if_true]
  constructor
  · rw [rlookup_rset_other _ _ _ _ (by decide)]
    exact rlookup_rset_self _ _ _
  · exact rlookup_rset_self _ _ _

theorem clookup_cset_self (c : Col) (uid : String) (r : Rec) :
    clookup (cset c uid r) uid = some r :=
  alookup_aset_self c uid r

theorem clookup_cset_other (c : Col) (uid uid' : String) (r : Rec) (h : uid' ≠ uid) :
    clookup (cset c uid r) uid' = clookup c uid' :=
  alookup_aset_other c uid uid' r h

/-- `update_arp_step` preserves an established `"multiple"` slot. -/
theorem update_arp_step_mult {I : Col} {acc acc' : ArpAcc} {e : Rec} {K : String}
    (hstep : update_arp_step I acc e = .ok acc') (h : slotMult acc.arp_tmp K) :
    slotMult acc'.arp_tmp K := by
  unfold update_arp_step at hstep
  cases hinv : getItem e "invalid" with
  | error err => rw [hinv] at hstep; cases hstep
  | ok inv =>
    rw [hinv] at hstep
    by_cases htr : inv.truthy = true
    · simp only [htr, if_true, Except.ok.injEq] at hstep
      rw [← hstep]; exact h
    · simp only [htr, Bool.false_eq_true, if_false] at hstep
      by_cases hif : rhas e "interface" = true
      · simp only [hif, not_true, if_false] at hstep
        by_cases hbr : rlookup e "interface" = some (.str "bridge")
        · simp only [hbr, if_true, Except.ok.injEq] at hstep
          rw [← hstep]; exact h
        · simp only [hbr, if_false] at hstep
          cases hgi : get_iface_from_entry I e with
          | error err => rw [hgi] at hstep; cases hstep
          | ok uid? =>
            rw [hgi] at hstep
            match uid? with
            | none =>
              simp only [Except.ok.injEq] at hstep
              rw [← hstep]; exact h
            | some uid =>
              by_cases hu : uid = ""
              · simp only [hu, if_true, Except.ok.injEq] at hstep
                rw [← hstep]; exact h
              · simp only [if_neg hu, Except.ok.injEq] at hstep
                rw [← hstep]
                by_cases huK : uid = K
                · subst huK
                  obtain ⟨s, hs, hm, ha⟩ := h
                  have hgetD : (clookup acc.arp_tmp uid).getD [] = s := by rw [hs]; rfl
                  rw [hgetD]
                  refine ⟨arp_slot_update s uid e, clookup_cset_self _ _ _, ?_⟩
                  exact arp_slot_update_mult s uid e (by simp [rhas, ahas, hm]) (by simp [rhas, ahas, ha])
                · obtain ⟨s, hs, hm, ha⟩ := h
                  exact ⟨s, by rw [clookup_cset_other _ _ _ _ (fun hh => huK hh.symm)]; exact hs, hm, ha⟩
      · simp only [hif] at hstep
        simp only [Bool.false_eq_true, not_false_iff, if_true, Except.ok.injEq] at hstep
        rw [← hstep]; exact h

/-- `update_arp_step` preserves an occupied slot. -/
theorem update_arp_step_keys {I : Col} {acc acc' : ArpAcc} {e : Rec} {K : String}
    (hstep : update_arp_step I acc e = .ok acc') (h : slotKeys acc.arp_tmp K) :
    slotKeys acc'.arp_tmp K := by
  unfold update_arp_step at hstep
  cases hinv : getItem e "invalid" with
  | error err => rw [hinv] at hstep; cases hstep
  | ok inv =>
    rw [hinv] at hstep
    by_cases htr : inv.truthy = true
    · simp only [htr, if_true, Except.ok.injEq] at hstep
      rw [← hstep]; exact h
    · simp only [htr, Bool.false_eq_true, if_false] at hstep
      by_cases hif : rhas e "interface" = true
      · simp only [hif, not_true, if_false] at hstep
        by_cases hbr : rlookup e "interface" = some (.str "bridge")
        · simp only [hbr, if_true, Except.ok.injEq] at hstep
          rw [← hstep]; exact h
        · simp only [hbr, if_false] at hstep
          cases hgi : get_iface_from_entry I e with
          | error err => rw [hgi] at hstep; cases hstep
          | ok uid? =>
            rw [hgi] at hstep
            match uid? with
            | none =>
              simp only [Except.ok.injEq] at hstep
              rw [← hstep]; exact h
            | some uid =>
              by_cases hu : uid = ""
              · simp only [hu, if_true, Except.ok.injEq] at hstep
                rw [← hstep]; exact h
              · simp only [if_neg hu, Except.ok.injEq] at hstep
                rw [← hstep]
                by_cases huK : uid = K
                · subst huK
                  refine ⟨arp_slot_update ((clookup acc.arp_tmp uid).getD []) uid e,
                    clookup_cset_self _ _ _, ?_, ?_⟩
                  · exact (arp_slot_update_keys _ _ _).1
                  · exact (arp_slot_update_keys _ _ _).2
                · obtain ⟨s, hs, hm, ha⟩ := h
                  exact ⟨s, by rw [clookup_cset_other _ _ _ _ (fun hh => huK hh.symm)]; exact hs, hm, ha⟩
      · simp only [hif] at hstep
        simp only [Bool.false_eq_true, not_false_iff, if_true, Except.ok.injEq] at hstep
        rw [← hstep]; exact h

/-- `update_arp_loop` distributes over list append. -/
theorem update_arp_loop_append (I : Col) (xs ys : List Rec) (acc : ArpAcc) :
    update_arp_loop I (xs ++ ys) acc =
      match update_arp_loop I xs acc with
      | .error e => .error e
      | .ok a => update_arp_loop I ys a := by
  induction xs generalizing acc with
  | nil => simp [update_arp_loop]
  | cons e rest ih =>
    simp only [List.cons_append, update_arp_loop]
    cases update_arp_step I acc e with
    | error err => rfl
    | ok a => exact ih a

theorem update_arp_loop_mult {I : Col} {data : List Rec} {acc acc' : ArpAcc} {K : String}
    (h : update_arp_loop I data acc = .ok acc') (hm : slotMult acc.arp_tmp K) :
    slotMult acc'.arp_tmp K := by
  induction data generalizing acc with
  | nil =>
    simp only [update_arp_loop, Except.ok.injEq] at h
    rw [← h]; exact hm
  | cons e rest ih =>
    simp only [update_arp_loop] at h
    cases hstep : update_arp_step I acc e with
    | error err => rw [hstep] at h; cases h
    | ok a =>
      rw [hstep] at h
      exact ih h (update_arp_step_mult hstep hm)

theorem update_arp_loop_keys {I : Col} {data : List Rec} {acc acc' : ArpAcc} {K : String}
    (h : update_arp_loop I data acc = .ok acc') (hk : slotKeys acc.arp_tmp K) :
    slotKeys acc'.arp_tmp K := by
  induction data generalizing acc with
  | nil =>
    simp only [update_arp_loop, Except.ok.injEq] at h
    rw [← h]; exact hk
  | cons e rest ih =>
    simp only [update_arp_loop] at h
    cases hstep : update_arp_step I acc e with
    | error err => rw [hstep] at h; cases h
    | ok a =>
      rw [hstep] at h
      exact ih h (update_arp_step_keys hstep hk)

/-- A live entry resolving to `K` makes the step succeed, occupies the slot
for `K`, and escalates an already-occupied slot to `"multiple"`. -/
theorem update_arp_step_creates {I : Col} (acc : ArpAcc) {e : Rec} {K : String}
    (hl : entry_live e = true) (hr : entry_resolves I e K = true) :
    ∃ acc', update_arp_step I acc e = .ok acc' ∧ slotKeys acc'.arp_tmp K ∧
      (slotKeys acc.arp_tmp K → slotMult acc'.arp_tmp K) := by
  unfold entry_live at hl
  unfold entry_resolves at hr
  simp only [Bool.and_eq_true, Bool.not_eq_true', decide_eq_false_iff_not,
    decide_eq_true_eq] at hr
  obtain ⟨⟨⟨hif, hbr⟩, hgi⟩, hK⟩ := hr
  cases hv : rlookup e "invalid" with
  | none => rw [hv] at hl; cases hl
  | some v =>
    rw [hv] at hl
    simp only [Bool.not_eq_true'] at hl
    have hgetInv : getItem e "invalid" = .ok v := by simp [getItem, hv]
    have hstep : update_arp_step I acc e = .ok { acc with arp_tmp :=
        (cset acc.arp_tmp K (arp_slot_update ((clookup acc.arp_tmp K).getD []) K e)) } := by
      unfold update_arp_step
      rw [hgetInv]
      simp only [hl, Bool.false_eq_true, if_false, hif, not_true, if_false, hbr, if_false,
        hgi, if_neg hK]
    refine ⟨_, hstep, ?_, ?_⟩
    · exact ⟨arp_slot_update ((clookup acc.arp_tmp K).getD []) K e,
        clookup_cset_self _ _ _, (arp_slot_update_keys _ _ _).1, (arp_slot_update_keys _ _ _).2⟩
    · intro hkeys
      obtain ⟨s, hs, hm, ha⟩ := hkeys
      have hgetD : (clookup acc.arp_tmp K).getD [] = s := by rw [hs]; rfl
      refine ⟨arp_slot_update s K e, ?_,
        (arp_slot_update_mult s K e hm ha).1, (arp_slot_update_mult s K e hm ha).2⟩
      show clookup (cset acc.arp_tmp K
        (arp_slot_update ((clookup acc.arp_tmp K).getD []) K e)) K = _
      rw [hgetD]
      exact clookup_cset_self _ _ _

theorem update_bridge_step_mult {I : Col} {m2i : List (Val × Val)} {tmp tmp' : Col}
    {e : Rec} {K : String}
    (hstep : update_bridge_step I m2i tmp e = .ok tmp') (h : slotMult tmp K) :
    slotMult tmp' K := by
  unfold update_bridge_step at hstep
  cases hloc : getItem e "local" with
  | error err => rw [hloc] at hstep; cases hstep
  | ok loc =>
    rw [hloc] at hstep
    by_cases htr : loc.truthy = true
    · simp only [htr, if_true, Except.ok.injEq] at hstep
      rw [← hstep]; exact h
    · simp only [htr, Bool.false_eq_true, if_false] at hstep
      cases hgi : get_iface_from_entry I e with
      | error err => rw [hgi] at hstep; cases hstep
      | ok uid? =>
        rw [hgi] at hstep
        match uid? with
        | none =>
          simp only [Except.ok.injEq] at hstep
          rw [← hstep]; exact h
        | some uid =>
          by_cases hu : uid = ""
          · simp only [hu, if_true, Except.ok.injEq] at hstep
            rw [← hstep]; exact h
          · simp only [if_neg hu, Except.ok.injEq] at hstep
            rw [← hstep]
            by_cases huK : uid = K
            · subst huK
              obtain ⟨s, hs, hm, ha⟩ := h
              have hgetD : (clookup tmp uid).getD [] = s := by rw [hs]; rfl
              rw [hgetD]
              refine ⟨_, clookup_cset_self _ _ _, ?_⟩
              exact (bridge_slot_update_mult s uid e m2i (by simp [rhas, ahas, hm])).imp id id
            · obtain ⟨s, hs, hm, ha⟩ := h
              exact ⟨s, by rw [clookup_cset_other _ _ _ _ (fun hh => huK hh.symm)]; exact hs, hm, ha⟩

theorem update_bridge_loop_mult {I : Col} {m2i : List (Val × Val)} {data : List Rec}
    {tmp tmp' : Col} {K : String}
    (h : update_bridge_loop I m2i data tmp = .ok tmp') (hm : slotMult tmp K) :
    slotMult tmp' K := by
  induction data generalizing tmp with
  | nil =>
    simp only [update_bridge_loop, Except.ok.injEq] at h
    rw [← h]; exact hm
  | cons e rest ih =>
    simp only [update_bridge_loop] at h
    cases hstep : update_bridge_step I m2i tmp e with
    | error err => rw [hstep] at h; cases h
    | ok a =>
      rw [hstep] at h
      exact ih h (update_bridge_step_mult hstep hm)

/-- Inversion for one step of the `update_arp` loop. -/
theorem update_arp_loop_cons_inv {I : Col} {e : Rec} {rest : List Rec} {acc acc' : ArpAcc}
    (h : update_arp_loop I (e :: rest) acc = .ok acc') :
    ∃ a, update_arp_step I acc e = .ok a ∧ update_arp_loop I rest a = .ok acc' := by
  revert h
  simp only [update_arp_loop]
  cases update_arp_step I acc e with
  | error err => intro h; exact Except.noConfusion h
  | ok a => intro h; exact ⟨a, rfl, h⟩

/-- Inversion of the loop over an appended list. -/
theorem update_arp_loop_append_inv {I : Col} {xs ys : List Rec} {acc acc' : ArpAcc}
    (h : update_arp_loop I (xs ++ ys) acc = .ok acc') :
    ∃ a, update_arp_loop I xs acc = .ok a ∧ update_arp_loop I ys a = .ok acc' := by
  rw [update_arp_loop_append] at h
  revert h
  cases update_arp_loop I xs acc with
  | error err => intro h; exact Except.noConfusion h
  | ok a => intro h; exact ⟨a, rfl, h⟩

/-- Inversion for the second phase of `get_interface_client`. -/
theorem client_phase2_inv {I : Col} {bridge_data : List Rec} {acc : ArpAcc} {res : Col}
    (h : client_phase2 I bridge_data acc = .ok res) :
    ∃ tmp, (if acc.bridge_used then update_bridge_loop I acc.mac2ip bridge_data acc.arp_tmp
            else .ok acc.arp_tmp) = .ok tmp ∧ res = apply_client tmp I := by
  unfold client_phase2 at h
  revert h
  cases (if acc.bridge_used then update_bridge_loop I acc.mac2ip bridge_data acc.arp_tmp
         else .ok acc.arp_tmp) with
  | error err => intro h; exact Except.noConfusion h
  | ok tmp => intro h; exact ⟨tmp, rfl, (Except.ok.inj h).symm⟩

/-- Inversion of `get_interface_client` with tracking enabled. -/
theorem get_interface_client_inv {I : Col} {arp bridge : List Rec} {res : Col}
    (h : get_interface_client true I arp bridge = .ok res) :
    ∃ acc, update_arp_loop I arp ⟨[], [], false⟩ = .ok acc ∧
      client_phase2 I bridge acc = .ok res := by
  unfold get_interface_client at h
  simp only [not_true, Bool.not_true, Bool.false_eq_true, if_false] at h
  revert h
  cases update_arp_loop I arp ⟨[], [], false⟩ with
  | error err => intro h; exact Except.noConfusion h
  | ok acc => intro h; exact ⟨acc, rfl, h⟩

/-- Main helper: with ARP tracking on, two live non-bridge ARP entries that
resolve to the same interface key leave that interface with both client
fields set to `"multiple"`, whatever else the cycle saw. -/
theorem arp_two_entries_client_multiple (interfaces : Col) (l1 l2 l3 : List Rec)
    (e1 e2 : Rec) (bridge_data : List Rec) (K : String) (res : Col)
    (h1 : entry_live e1 = true) (h2 : entry_live e2 = true)
    (hr1 : entry_resolves interfaces e1 K = true)
    (hr2 : entry_resolves interfaces e2 K = true)
    (hrun : get_interface_client true interfaces (l1 ++ e1 :: (l2 ++ e2 :: l3)) bridge_data
      = .ok res) :
    ∃ r, clookup res K = some r ∧
      rlookup r "client-mac-address" = some (.str "multiple") ∧
      rlookup r "client-ip-address" = some (.str "multiple") := by
  obtain ⟨acc, hloop, hph2⟩ := get_interface_client_inv hrun
  obtain ⟨a1, hl1, hloop⟩ := update_arp_loop_append_inv hloop
  obtain ⟨a2, hstep1, hloop⟩ := update_arp_loop_cons_inv hloop
  obtain ⟨a3, hl2, hloop⟩ := update_arp_loop_append_inv hloop
  obtain ⟨a4, hstep2, hloop⟩ := update_arp_loop_cons_inv hloop
  obtain ⟨a2', hstep1', hkeys2, _⟩ := update_arp_step_creates a1 h1 hr1
  rw [hstep1] at hstep1'
  have ha2 : a2' = a2 := (Except.ok.inj hstep1').symm
  subst ha2
  have hkeys3 : slotKeys a3.arp_tmp K := update_arp_loop_keys hl2 hkeys2
  obtain ⟨a4', hstep2', _, hmult4⟩ := update_arp_step_creates a3 h2 hr2
  rw [hstep2] at hstep2'
  have ha4 : a4' = a4 := (Except.ok.inj hstep2').symm
  subst ha4
  have hmultacc : slotMult acc.arp_tmp K := update_arp_loop_mult hloop (hmult4 hkeys3)
  obtain ⟨tmp, htmp, hres⟩ := client_phase2_inv hph2
  have hmulttmp : slotMult tmp K := by
    by_cases hb : acc.bridge_used = true
    · rw [if_pos hb] at htmp
      exact update_bridge_loop_mult htmp hmultacc
    · rw [if_neg hb] at htmp
      obtain ⟨s, hs, hm, ha⟩ := hmultacc
      exact ⟨s, (Except.ok.inj htmp) ▸ hs, hm, ha⟩
  obtain ⟨slot, hslot, hm, ha⟩ := hmulttmp
  have hKmem : K ∈ interfaces.map Prod.fst := by
    unfold entry_resolves at hr2
    simp only [Bool.and_eq_true, decide_eq_true_eq] at hr2
    obtain ⟨⟨⟨_, _⟩, hgi⟩, _⟩ := hr2
    unfold get_iface_from_entry at hgi
    revert hgi
    cases hgw : getItem e2 "interface" with
    | error err => intro hgi; exact Except.noConfusion hgi
    | ok w => intro hgi; exact find_iface_mem hgi
  have hKi : ∃ rK, clookup interfaces K = some rK :=
    Option.isSome_iff_exists.mp (alookup_isSome_of_mem hKmem)
  obtain ⟨rK, hrK⟩ := hKi
  subst hres
  have hcf : client_fields tmp K rK =
      rset (rset rK "client-ip-address" (from_entry slot "address"))
        "client-mac-address" (from_entry slot "mac-address") := by
    unfold client_fields
    rw [hslot]
  have hmap : clookup (apply_client tmp interfaces) K =
      (clookup interfaces K).map (client_fields tmp K) := by
    unfold apply_client
    exact alookup_map_snd interfaces (client_fields tmp) K
  rw [hmap, hrK]
  refine ⟨_, rfl, ?_, ?_⟩
  · simp only [Option.map_some, hcf]
    rw [rlookup_rset_self]
    simp [from_entry, hm]
  · simp only [Option.map_some, hcf]
    rw [rlookup_rset_other _ _ _ _ (by decide), rlookup_rset_self]
    simp [from_entry, ha]

/-- Claim C4: if two valid non-bridge ARP entries resolve to the same
interface key (matching the entry's interface name against the interfaces'
display names), then after `get_interface_client` that interface's
`client-mac-address` and `client-ip-address` are both the literal string
`"multiple"`. -/
theorem C4_two_arp_entries_same_interface_multiple (interfaces : Col)
    (l1 l2 l3 : List Rec) (e1 e2 : Rec) (bridge_data : List Rec) (K : String) (res : Col)
    (h1 : entry_live e1 = true) (h2 : entry_live e2 = true)
    (hr1 : entry_resolves interfaces e1 K = true)
    (hr2 : entry_resolves interfaces e2 K = true)
    (hrun : get_interface_client true interfaces (l1 ++ e1 :: (l2 ++ e2 :: l3)) bridge_data
      = .ok res) :
    ∃ r, clookup res K = some r ∧
      rlookup r "client-mac-address" = some (.str "multiple") ∧
      rlookup r "client-ip-address" = some (.str "multiple") :=
  arp_two_entries_client_multiple interfaces l1 l2 l3 e1 e2 bridge_data K res h1 h2 hr1 hr2 hrun

theorem C4_witness :
    entry_live arpEntry1 = true ∧ entry_live arpEntry2 = true ∧
    entry_resolves ifacesEx arpEntry1 "ether1" = true ∧
    entry_resolves ifacesEx arpEntry2 "ether1" = true ∧
    get_interface_client true ifacesEx ([] ++ arpEntry1 :: ([] ++ arpEntry2 :: [])) []
      = .ok multipleRes ∧
    ∃ r, clookup multipleRes "ether1" = some r ∧
      rlookup r "client-mac-address" = some (.str "multiple") ∧
      rlookup r "client-ip-address" = some (.str "multiple") :=
  ⟨by decide, by decide, by decide, by decide, by decide,
    C4_two_arp_entries_same_interface_multiple ifacesEx [] [] [] arpEntry1 arpEntry2 []
      "ether1" multipleRes (by decide) (by decide) (by decide) (by decide) (by decide)⟩

/-- Claim C10: the `"multiple"` sentinel in `update_arp` depends only on the
scratch slot's keys being occupied, not on the values differing — two valid
non-bridge ARP entries resolving to the same interface key yield `"multiple"`
in both client fields even when they carry the identical MAC address and
identical IP address. -/
theorem C10_identical_arp_entries_still_multiple (interfaces : Col)
    (l1 l2 l3 : List Rec) (e1 e2 : Rec) (bridge_data : List Rec) (K : String) (res : Col)
    (h1 : entry_live e1 = true) (h2 : entry_live e2 = true)
    (hr1 : entry_resolves interfaces e1 K = true)
    (hr2 : entry_resolves interfaces e2 K = true)
    (hmac : rlookup e1 "mac-address" = rlookup e2 "mac-address")
    (haddr : rlookup e1 "address" = rlookup e2 "address")
    (hrun : get_interface_client true interfaces (l1 ++ e1 :: (l2 ++ e2 :: l3)) bridge_data
      = .ok res) :
    ∃ r, clookup res K = some r ∧
      rlookup r "client-mac-address" = some (.str "multiple") ∧
      rlookup r "client-ip-address" = some (.str "multiple") :=
  arp_two_entries_client_multiple interfaces l1 l2 l3 e1 e2 bridge_data K res h1 h2 hr1 hr2 hrun

theorem C10_witness :
    entry_live arpEntry1 = true ∧
    entry_resolves ifacesEx arpEntry1 "ether1" = true ∧
    rlookup arpEntry1 "mac-address" = rlookup arpEntry1 "mac-address" ∧
    rlookup arpEntry1 "address" = rlookup arpEntry1 "address" ∧
    get_interface_client true ifacesEx ([] ++ arpEntry1 :: ([] ++ arpEntry1 :: [])) []
      = .ok multipleRes ∧
    ∃ r, clookup multipleRes "ether1" = some r ∧
      rlookup r "client-mac-address" = some (.str "multiple") ∧
      rlookup r "client-ip-address" = some (.str "multiple") :=
  ⟨by decide, by decide, rfl, rfl, by decide,
    C10_identical_arp_entries_still_multiple ifacesEx [] [] [] arpEntry1 arpEntry1 []
      "ether1" multipleRes (by decide) (by decide) (by decide) (by decide) rfl rfl (by decide)⟩

/-- Claim C2 is false on the code: with the single bridge ARP entry
(MAC `AA:…`, address `10.0.0.5`) and a bridge-host entry carrying the
different MAC `BB:…` on `ether1`, the interface's `client-ip-address` is the
empty string, not the ARP address `10.0.0.5` — the MAC→IP side table is keyed
by the ARP entry's own MAC, so a different bridge-host MAC cannot resolve. -/
theorem C2_counterexample :
    get_interface_client true ifacesEx arpBridgeEx bridgeHostEx = .ok bridgeJoinRes ∧
    clookup bridgeJoinRes "ether1" =
      some [("name", Val.str "ether1"), ("client-ip-address", Val.str ""),
        ("client-mac-address", Val.str "BB:BB:BB:BB:BB:BB")] ∧
    Val.str "" ≠ Val.str "10.0.0.5" := by
  refine ⟨by decide, by decide, by decide⟩

/-- Claim C2 (amended): with exactly one ARP entry on the bridge (MAC `M`,
address `A`) and one non-local bridge-host entry carrying MAC `M2` that
resolves to interface key `K`, the interface ends the cycle with
`client-mac-address = M2` and `client-address` resolved through the MAC→IP
side table keyed by `M`: it equals `A` exactly when `M2 = M`, and the empty
string otherwise. -/
theorem C2_bridge_join_amended (interfaces : Col) (M A M2 ifn K : String) (res : Col)
    (hfind : find_iface interfaces (.str ifn) = .ok (some K))
    (hK : K ≠ "")
    (hrun : get_interface_client true interfaces
        [[("invalid", .bool false), ("interface", .str "bridge"),
          ("mac-address", .str M), ("address", .str A)]]
        [[("local", .bool false), ("interface", .str ifn), ("mac-address", .str M2)]]
      = .ok res) :
    ∃ r, clookup res K = some r ∧
      rlookup r "client-mac-address" = some (.str M2) ∧
      rlookup r "client-ip-address" = some (if M2 = M then Val.str A else Val.str "") := by
  obtain ⟨acc, hloop, hph2⟩ := get_interface_client_inv hrun
  have hacc : update_arp_loop interfaces
      [[("invalid", .bool false), ("interface", .str "bridge"),
        ("mac-address", .str M), ("address", .str A)]] ⟨[], [], false⟩
      = .ok ⟨[], [(.str M, .str A)], true⟩ := rfl
  rw [hacc] at hloop
  have haccEq : (⟨[], [(.str M, .str A)], true⟩ : ArpAcc) = acc := Except.ok.inj hloop
  subst haccEq
  obtain ⟨tmp, htmp, hres⟩ := client_phase2_inv hph2
  rw [if_pos rfl] at htmp
  have hgi2 : get_iface_from_entry interfaces
      [("local", .bool false), ("interface", .str ifn), ("mac-address", .str M2)]
      = .ok (some K) := hfind
  have hstep : update_bridge_step interfaces [(.str M, .str A)] []
      [("local", .bool false), ("interface", .str ifn), ("mac-address", .str M2)]
      = .ok (cset [] K (bridge_slot_update [] K
          [("local", .bool false), ("interface", .str ifn), ("mac-address", .str M2)]
          [(.str M, .str A)])) := by
    unfold update_bridge_step
    rw [show getItem [("local", Val.bool false), ("interface", Val.str ifn),
        ("mac-address", Val.str M2)] "local" = Except.ok (.bool false) from rfl]
    simp only [Val.truthy, Bool.false_eq_true, if_false, hgi2, if_neg hK]
    rfl
  have hloop2 : update_bridge_loop interfaces [(.str M, .str A)]
      [[("local", .bool false), ("interface", .str ifn), ("mac-address", .str M2)]] []
      = .ok (cset [] K (bridge_slot_update [] K
          [("local", .bool false), ("interface", .str ifn), ("mac-address", .str M2)]
          [(.str M, .str A)])) := by
    simp only [update_bridge_loop, hstep]
  rw [hloop2] at htmp
  have htmpEq : cset [] K (bridge_slot_update [] K
      [("local", .bool false), ("interface", .str ifn), ("mac-address", .str M2)]
      [(.str M, .str A)]) = tmp := Except.ok.inj htmp
  have hslotval : bridge_slot_update [] K
      [("local", .bool false), ("interface", .str ifn), ("mac-address", .str M2)]
      [(.str M, .str A)] =
      [("interface", .str K), ("mac-address", .str M2),
       ("address", (vlookup [(Val.str M, Val.str A)] (.str M2)).getD (.str ""))] := rfl
  have hav : (vlookup [(Val.str M, Val.str A)] (.str M2)).getD (.str "") =
      (if M2 = M then Val.str A else Val.str "") := by
    by_cases hMM : M2 = M
    · subst hMM
      simp [vlookup, List.find?]
    · have hMM' : ¬ (M = M2) := fun hh => hMM hh.symm
      simp [vlookup, List.find?, hMM, hMM', Val.str.injEq]
  have hKmem : K ∈ interfaces.map Prod.fst := find_iface_mem hfind
  obtain ⟨rK, hrK⟩ : ∃ rK, clookup interfaces K = some rK :=
    Option.isSome_iff_exists.mp (alookup_isSome_of_mem hKmem)
  subst hres
  have hslot : clookup tmp K = some
      [("interface", .str K), ("mac-address", .str M2),
       ("address", (if M2 = M then Val.str A else Val.str ""))] := by
    rw [← htmpEq, hslotval, hav]
    exact clookup_cset_self _ _ _
  have hcf : client_fields tmp K rK =
      rset (rset rK "client-ip-address" (if M2 = M then Val.str A else Val.str ""))
        "client-mac-address" (.str M2) := by
    unfold client_fields
    rw [hslot]
    rfl
  have hmap : clookup (apply_client tmp interfaces) K =
      (clookup interfaces K).map (client_fields tmp K) := by
    unfold apply_client
    exact alookup_map_snd interfaces (client_fields tmp) K
  rw [hmap, hrK]
  refine ⟨_, rfl, ?_, ?_⟩
  · simp only [Option.map_some, hcf]
    rw [rlookup_rset_self]
  · simp only [Option.map_some, hcf]
    rw [rlookup_rset_other _ _ _ _ (by decide), rlookup_rset_self]

theorem C2_witness :
    find_iface ifacesEx (.str "ether1") = .ok (some "ether1") ∧
    ("ether1" : String) ≠ "" ∧
    get_interface_client true ifacesEx
      [[("invalid", .bool false), ("interface", .str "bridge"),
        ("mac-address", .str "AA:AA:AA:AA:AA:AA"), ("address", .str "10.0.0.5")]]
      [[("local", .bool false), ("interface", .str "ether1"),
        ("mac-address", .str "BB:BB:BB:BB:BB:BB")]] = .ok bridgeJoinRes ∧
    ∃ r, clookup bridgeJoinRes "ether1" = some r ∧
      rlookup r "client-mac-address" = some (.str "BB:BB:BB:BB:BB:BB") ∧
      rlookup r "client-ip-address" =
        some (if ("BB:BB:BB:BB:BB:BB" : String) = "AA:AA:AA:AA:AA:AA" then
          Val.str "10.0.0.5" else Val.str "") :=
  ⟨by decide, by decide, by decide,
    C2_bridge_join_amended ifacesEx "AA:AA:AA:AA:AA:AA" "10.0.0.5" "BB:BB:BB:BB:BB:BB"
      "ether1" "ether1" bridgeJoinRes (by decide) (by decide) (by decide)⟩

/-- Claim C1 is right about the intent but the code is wrong: the backfill
zips six keys against five defaults, so `zip` truncation pairs `"last-seen"`
with `False` (not `"unknown"`) and gives `"available"` no default at all.
The first conjunct exhibits the truncated table; the second runs
`process_host` on a single lease still waiting for an address (`"unknown"`),
where the availability probe is skipped and line 828's
`self.data["host"][uid]["available"]` raises `KeyError`. -/
theorem C1_available_never_backfilled :
    host_default_pairs =
      [("address", Val.str "unknown"), ("mac-address", Val.str "unknown"),
       ("interface", Val.str "unknown"), ("hostname", Val.str "unknown"),
       ("last-seen", Val.bool false)] ∧
    process_host [] dhcpLeaseEx [] [] (fun _ _ => false) (.time 0)
      = .error (.keyError "available") :=
  ⟨rfl, by decide⟩

/-- Claim C6 is false on the code: `update_arp` indexes `entry["invalid"]`
unguarded, so an ARP record without that field raises `KeyError` instead of
being tolerated; likewise `get_dhcp` indexes the dhcp-server collection with
the lease's server name unguarded, raising `KeyError "unknown"` for a lease
whose defaulted server has no entry. -/
theorem C6_counterexample :
    update_arp_loop ifacesEx [[("interface", Val.str "ether1")]] ⟨[], [], false⟩
      = .error (.keyError "invalid") ∧
    dhcp_lease_interface_loop [] ["00:11:22:33:44:55"]
      [("00:11:22:33:44:55", [("server", Val.str "unknown")])]
      = .error (.keyError "unknown") := by
  refine ⟨by decide, by decide⟩

/-- Claim C6 (amended): these two field accesses are schema-closed, not
schema-open — `update_arp` raises `KeyError "invalid"` on any ARP record
lacking the `"invalid"` field, and the lease/server join of `get_dhcp` raises
`KeyError` with the server name whenever a lease's server is absent from the
dhcp-server collection. -/
theorem C6_strict_accesses_raise :
    (∀ (I : Col) (e : Rec) (rest : List Rec) (acc : ArpAcc),
      rlookup e "invalid" = none →
      update_arp_loop I (e :: rest) acc = .error (.keyError "invalid")) ∧
    (∀ (servers dhcp : Col) (uid : String) (r : Rec) (restk : List String) (s : String),
      clookup dhcp uid = some r → rlookup r "server" = some (.str s) →
      clookup servers s = none →
      dhcp_lease_interface_loop servers (uid :: restk) dhcp = .error (.keyError s)) := by
  constructor
  · intro I e rest acc h
    simp only [update_arp_loop, update_arp_step, getItem, h]
  · intro servers dhcp uid r restk s hr hs hsrv
    simp only [dhcp_lease_interface_loop, hr, Option.getD_some, getItem, hs, hsrv]

theorem C6_witness :
    (rlookup ([("interface", Val.str "ether1")] : Rec) "invalid" = none ∧
      update_arp_loop ifacesEx [[("interface", Val.str "ether1")]] ⟨[], [], false⟩
        = .error (.keyError "invalid")) ∧
    (clookup [("00:11:22:33:44:55", [("server", Val.str "unknown")])] "00:11:22:33:44:55"
        = some [("server", Val.str "unknown")] ∧
      rlookup [("server", Val.str "unknown")] "server" = some (.str "unknown") ∧
      clookup ([] : Col) "unknown" = none ∧
      dhcp_lease_interface_loop [] ["00:11:22:33:44:55"]
        [("00:11:22:33:44:55", [("server", Val.str "unknown")])]
        = .error (.keyError "unknown")) :=
  ⟨⟨by decide, C6_strict_accesses_raise.1 ifacesEx [("interface", Val.str "ether1")] []
      ⟨[], [], false⟩ (by decide)⟩,
   ⟨by decide, by decide, by decide,
    C6_strict_accesses_raise.2 [] [("00:11:22:33:44:55", [("server", Val.str "unknown")])]
      "00:11:22:33:44:55" [("server", Val.str "unknown")] [] "unknown"
      (by decide) (by decide) (by decide)⟩⟩

/-- Claim C7 is false on the code: `q1` has a well-formed `max-limit` but a
three-part `limit-at`.  The list comprehension's two-tuple unpacking raises
`ValueError`; the record is **not** held back — it stays promoted in the
collection carrying the already-computed `upload-max-limit` /
`download-max-limit` and no `upload-limit-at` — records after it stay
unprocessed, and the cycle **is** aborted: the exception propagates out of
`async_update`, so no update signal is dispatched (and the lock is never
released). -/
theorem C7_counterexample :
    (async_update_queue_tail "" queueEx).err = some .valueError ∧
    (async_update_queue_tail "" queueEx).notified = false ∧
    (async_update_queue_tail "" queueEx).lock_released = false ∧
    (clookup (async_update_queue_tail "" queueEx).queue "q1").map
      (fun r => (rhas r "upload-max-limit", rhas r "download-max-limit",
        rhas r "upload-limit-at")) = some (true, true, false) ∧
    (clookup (async_update_queue_tail "" queueEx).queue "q2").map
      (fun r => rhas r "upload-max-limit") = some false := by
  refine ⟨by decide, by decide, by decide, by decide, by decide⟩

/-- Claim C7 (amended): a malformed slash-delimited rate spec raises a
`ValueError` that is local to nothing — the `get_queue` loop stops at that
record, which stays promoted in the collection with exactly the derived
fields computed before the error (later records untouched), and the
exception aborts the whole update cycle: no notification is dispatched and
the lock is not released. -/
theorem C7_malformed_spec_aborts_cycle :
    (∀ (topt : String) (queue : Col) (e : PyErr),
      (get_queue_derive (get_traffic_type_and_div topt).1 (get_traffic_type_and_div topt).2
        (queue.map Prod.fst) queue).2 = some e →
      (async_update_queue_tail topt queue).notified = false ∧
      (async_update_queue_tail topt queue).lock_released = false ∧
      (async_update_queue_tail topt queue).err = some e)
    ∧ (∀ (ttype : String) (tdiv : Rat) (uid : String) (rest : List String) (q : Col)
        (r r' : Rec) (e : PyErr),
      clookup q uid = some r →
      derive_queue_rec ttype tdiv r = (r', some e) →
      get_queue_derive ttype tdiv (uid :: rest) q = (cset q uid r', some e)) := by
  constructor
  · intro topt queue e herr
    refine ⟨?_, ?_, ?_⟩ <;>
      simp only [async_update_queue_tail, herr, Option.isNone_some]
  · intro ttype tdiv uid rest q r r' e hq hder
    simp only [get_queue_derive, hq, Option.getD_some, hder]

theorem C7_witness :
    ((get_queue_derive (get_traffic_type_and_div "").1 (get_traffic_type_and_div "").2
        (queueBadEx.map Prod.fst) queueBadEx).2 = some .valueError ∧
      (async_update_queue_tail "" queueBadEx).notified = false ∧
      (async_update_queue_tail "" queueBadEx).lock_released = false ∧
      (async_update_queue_tail "" queueBadEx).err = some .valueError) ∧
    (clookup queueBadEx "qb" = some [("name", Val.str "qb"), ("max-limit", Val.str "1/2/3")] ∧
      derive_queue_rec "bps" 1 [("name", Val.str "qb"), ("max-limit", Val.str "1/2/3")]
        = ([("name", Val.str "qb"), ("max-limit", Val.str "1/2/3")], some .valueError) ∧
      get_queue_derive "bps" 1 ("qb" :: []) queueBadEx
        = (cset queueBadEx "qb" [("name", Val.str "qb"), ("max-limit", Val.str "1/2/3")],
           some .valueError)) :=
  ⟨⟨by decide,
    C7_malformed_spec_aborts_cycle.1 "" queueBadEx .valueError (by decide)⟩,
   ⟨by decide, by decide,
    C7_malformed_spec_aborts_cycle.2 "bps" 1 "qb" [] queueBadEx
      [("name", Val.str "qb"), ("max-limit", Val.str "1/2/3")]
      [("name", Val.str "qb"), ("max-limit", Val.str "1/2/3")] .valueError
      (by decide) (by decide)⟩⟩

/-!
## NAT deduplicator lemmas
-/

theorem vslookup_append (l1 l2 : List (Val × String)) (k : Val) :
    vslookup (l1 ++ l2) k =
      match vslookup l1 k with
      | some u => some u
      | none => vslookup l2 k := by
  unfold vslookup
  rw [List.find?_append]
  cases h : List.find? (fun p => p.1 = k) l1 with
  | none => simp [h, Option.orElse]
  | some w => simp [h, Option.orElse]

theorem dinsertStr_mem (l : List String) (x a : String) :
    a ∈ dinsertStr l x ↔ a ∈ l ∨ a = x := by
  unfold dinsertStr
  by_cases h : x ∈ l
  · simp only [h, if_true]
    constructor
    · exact Or.inl
    · rintro (ha | ha)
      · exact ha
      · rw [ha]; exact h
  · simp [h]

/-- Characterisation of the first dedup loop: starting from invariants on the
accumulators, a uid ends in `nat_del` exactly when its display name collides
with another uid's. -/
theorem build_del_char (rest : List (String × Val)) :
    ∀ (P : List (String × Val)) (uniq : List (Val × String)) (del : List String),
    ((P ++ rest).map Prod.fst).Nodup →
    (∀ nm u, vslookup uniq nm = some u → (u, nm) ∈ P) →
    (∀ nm, vslookup uniq nm = none → ∀ u, (u, nm) ∉ P) →
    (∀ u, u ∈ del ↔ ∃ nm, (u, nm) ∈ P ∧ ∃ v, v ≠ u ∧ (v, nm) ∈ P) →
    ∀ u, u ∈ build_del rest uniq del ↔
      ∃ nm, (u, nm) ∈ P ++ rest ∧ ∃ v, v ≠ u ∧ (v, nm) ∈ P ++ rest := by
  induction rest with
  | nil =>
    intro P uniq del _ _ _ h2 u
    simpa [build_del] using h2 u
  | cons p t ih =>
    obtain ⟨uid, nm⟩ := p
    intro P uniq del hnd h1a h1b h2 u
    have hnd' : (((P ++ [(uid, nm)]) ++ t).map Prod.fst).Nodup := by
      rw [← List.append_cons]; exact hnd
    have hnd2 : (P.map Prod.fst ++ uid :: t.map Prod.fst).Nodup := by
      simpa using hnd
    have hmid : (uid :: (P.map Prod.fst ++ t.map Prod.fst)).Nodup :=
      List.nodup_middle.mp hnd2
    have huidP : uid ∉ P.map Prod.fst := by
      have h3 := (List.nodup_cons.mp hmid).1
      intro hc
      exact h3 (List.mem_append_left _ hc)
    have huidP' : ∀ nm', (uid, nm') ∉ P := by
      intro nm' hc
      exact huidP (List.mem_map_of_mem Prod.fst hc)
    have happ : (P ++ [(uid, nm)]) ++ t = P ++ (uid, nm) :: t := by
      rw [← List.append_cons]
    cases hlk : vslookup uniq nm with
    | none =>
      simp only [build_del, hlk]
      have hmain := ih (P ++ [(uid, nm)]) (uniq ++ [(nm, uid)]) del hnd'
        (by
          intro nm' u' hl
          rw [vslookup_append] at hl
          cases hl1 : vslookup uniq nm' with
          | some w =>
            rw [hl1] at hl
            simp only [Option.some.injEq] at hl
            exact List.mem_append_left _ (hl ▸ h1a nm' w hl1)
          | none =>
            rw [hl1] at hl
            by_cases hn : nm = nm'
            · subst hn
              simp [vslookup, List.find?] at hl
              subst hl
              simp
            · simp [vslookup, List.find?, hn] at hl)
        (by
          intro nm' hl u'
          rw [vslookup_append] at hl
          cases hl1 : vslookup uniq nm' with
          | some w => rw [hl1] at hl; cases hl
          | none =>
            rw [hl1] at hl
            simp only [List.mem_append, List.mem_singleton, not_or]
            refine ⟨h1b nm' hl1 u', ?_⟩
            intro hc
            rw [Prod.mk.injEq] at hc
            rw [hc.2] at hl
            simp [vslookup, List.find?] at hl)
        (by
          intro w
          rw [h2 w]
          constructor
          · rintro ⟨nm', hw, v, hv, hvmem⟩
            exact ⟨nm', List.mem_append_left _ hw, v, hv, List.mem_append_left _ hvmem⟩
          · rintro ⟨nm', hw, v, hv, hvmem⟩
            rcases List.mem_append.mp hw with hwP | hwS
            · rcases List.mem_append.mp hvmem with hvP | hvS
              · exact ⟨nm', hwP, v, hv, hvP⟩
              · simp only [List.mem_singleton, Prod.mk.injEq] at hvS
                rw [hvS.2] at hwP
                exact absurd hwP (h1b nm hlk w)
            · simp only [List.mem_singleton, Prod.mk.injEq] at hwS
              rcases List.mem_append.mp hvmem with hvP | hvS
              · rw [hwS.2] at hvP
                exact absurd hvP (h1b nm hlk v)
              · simp only [List.mem_singleton, Prod.mk.injEq] at hvS
                exact absurd (hvS.1.trans hwS.1.symm) hv)
        u
      rw [happ] at hmain
      exact hmain
    | some fuid =>
      simp only [build_del, hlk]
      have hfP : (fuid, nm) ∈ P := h1a nm fuid hlk
      have hfuid_ne : fuid ≠ uid := by
        intro hh
        exact huidP' nm (hh ▸ hfP)
      have hmain := ih (P ++ [(uid, nm)]) uniq (dinsertStr (dinsertStr del uid) fuid) hnd'
        (by
          intro nm' u' hl
          exact List.mem_append_left _ (h1a nm' u' hl))
        (by
          intro nm' hl u'
          simp only [List.mem_append, List.mem_singleton, not_or]
          refine ⟨h1b nm' hl u', ?_⟩
          intro hc
          rw [Prod.mk.injEq] at hc
          rw [hc.2] at hl
          rw [hl] at hlk
          cases hlk)
        (by
          intro w
          rw [dinsertStr_mem, dinsertStr_mem, h2 w]
          constructor
          · rintro ((⟨nm', hw, v, hv, hvmem⟩ | hw) | hw)
            · exact ⟨nm', List.mem_append_left _ hw, v, hv, List.mem_append_left _ hvmem⟩
            · subst hw
              exact ⟨nm, by simp, fuid, hfuid_ne, List.mem_append_left _ hfP⟩
            · subst hw
              exact ⟨nm, List.mem_append_left _ hfP, uid, fun hh => hfuid_ne hh.symm, by simp⟩
          · rintro ⟨nm', hw, v, hv, hvmem⟩
            rcases List.mem_append.mp hw with hwP | hwS
            · rcases List.mem_append.mp hvmem with hvP | hvS
              · exact Or.inl (Or.inl ⟨nm', hwP, v, hv, hvP⟩)
              · simp only [List.mem_singleton, Prod.mk.injEq] at hvS
                rw [hvS.2] at hwP
                by_cases hwf : fuid = w
                · exact Or.inr hwf.symm
                · exact Or.inl (Or.inl ⟨nm, hwP, fuid, hwf, hfP⟩)
            · simp only [List.mem_singleton, Prod.mk.injEq] at hwS
              exact Or.inl (Or.inr hwS.1))
        u
      rw [happ] at hmain
      exact hmain

/-- `natNames` preserves the key list and relates pairs to records. -/
theorem natNames_spec {nat : Col} {pairs : List (String × Val)}
    (h : natNames nat = .ok pairs) :
    pairs.map Prod.fst = nat.map Prod.fst ∧
    (∀ u nm, (u, nm) ∈ pairs ↔ ∃ r, (u, r) ∈ nat ∧ rlookup r "name" = some nm) := by
  induction nat generalizing pairs with
  | nil =>
    simp only [natNames, Except.ok.injEq] at h
    subst h
    simp
  | cons p t ih =>
    obtain ⟨uid, r⟩ := p
    revert h
    simp only [natNames]
    cases hr : getItem r "name" with
    | error e => intro h; exact Except.noConfusion h
    | ok n =>
      cases ht : natNames t with
      | error e => intro h; exact Except.noConfusion h
      | ok tl =>
        intro h
        have hpairs : pairs = (uid, n) :: tl := (Except.ok.inj h).symm
        subst hpairs
        obtain ⟨ihk, ihm⟩ := ih ht
        have hname : rlookup r "name" = some n := by
          revert hr
          unfold getItem
          cases hv : rlookup r "name" with
          | none => intro hr; exact Except.noConfusion hr
          | some v =>
            intro hr
            have hn : v = n := Except.ok.inj hr
            rw [hn]
        constructor
        · simp [ihk]
        · intro u nm
          constructor
          · intro hmem
            rcases List.mem_cons.mp hmem with hmem | hmem
            · rw [Prod.mk.injEq] at hmem
              exact ⟨r, by simp [hmem.1], hmem.2 ▸ hname⟩
            · obtain ⟨r', hr', hn'⟩ := (ihm u nm).mp hmem
              exact ⟨r', List.mem_cons_of_mem _ hr', hn'⟩
          · rintro ⟨r', hr', hn'⟩
            rcases List.mem_cons.mp hr' with hr' | hr'
            · rw [Prod.mk.injEq] at hr'
              have hnmn : nm = n := by
                rw [hr'.2] at hn'
                rw [hname] at hn'
                exact (Option.some.inj hn').symm
              exact List.mem_cons.mpr (Or.inl (by rw [hr'.1, hnmn]))
            · exact List.mem_cons_of_mem _ ((ihm u nm).mpr ⟨r', hr', hn'⟩)

/-- Every uid marked for deletion is dropped from the filtered collection. -/
theorem clookup_filter_del_none {nat : Col} {del : List String} {u : String}
    (hu : del.contains u = true) :
    clookup (nat.filter (fun p => ¬ del.contains p.1)) u = none := by
  unfold clookup alookup
  rw [Option.map_eq_none', List.find?_eq_none]
  intro p hp
  have hmem := List.of_mem_filter hp
  simp only [decide_eq_true_eq] at hmem
  intro hfst
  simp only [decide_eq_true_eq] at hfst
  rw [hfst] at hmem
  exact hmem hu

/-- A surviving entry was in the original collection. -/
theorem mem_of_mem_filter_del {nat : Col} {del : List String} {p : String × Rec}
    (hp : p ∈ nat.filter (fun q => ¬ del.contains q.1)) :
    p ∈ nat ∧ del.contains p.1 = false := by
  refine ⟨List.mem_of_mem_filter hp, ?_⟩
  have := List.of_mem_filter hp
  simp only [decide_eq_true_eq] at this
  exact Bool.of_not_eq_true this

theorem nameIsDerived_name {r : Rec} (h : nameIsDerived r = true) :
    ∃ s, rlookup r "name" = some (.str s) := by
  unfold nameIsDerived at h
  split at h
  · simp only [decide_eq_true_eq] at h
    exact ⟨_, h⟩
  · cases h

/-- The second dedup loop only grows `nat_removed`. -/
theorem process_del_removed_mono (pairs : List (String × Val)) :
    ∀ (del : List String) (removed logs : List Val) (nm : Val), nm ∈ removed →
      nm ∈ (process_del pairs del removed logs).1 := by
  intro del
  induction del with
  | nil => intro removed logs nm h; exact h
  | cons uid rest ih =>
    intro removed logs nm h
    simp only [process_del]
    by_cases hc : nameOf pairs uid ∈ removed
    · rw [if_pos hc]; exact ih removed logs nm h
    · rw [if_neg hc]; exact ih _ _ nm (List.mem_append_left _ h)

/-- After the second loop, every processed uid's name is in `nat_removed`. -/
theorem process_del_covers (pairs : List (String × Val)) :
    ∀ (del : List String) (removed logs : List Val) (u : String), u ∈ del →
      nameOf pairs u ∈ (process_del pairs del removed logs).1 := by
  intro del
  induction del with
  | nil => intro removed logs u h; cases h
  | cons uid rest ih =>
    intro removed logs u h
    simp only [process_del]
    rcases List.mem_cons.mp h with h | h
    · subst h
      by_cases hc : nameOf pairs u ∈ removed
      · rw [if_pos hc]; exact process_del_removed_mono pairs rest removed logs _ hc
      · rw [if_neg hc]
        exact process_del_removed_mono pairs rest _ _ _ (List.mem_append_right _ (by simp))
    · by_cases hc : nameOf pairs uid ∈ removed
      · rw [if_pos hc]; exact ih removed logs u h
      · rw [if_neg hc]; exact ih _ _ u h

/-- Logged names stay duplicate-free: each log event inserts its name into
`nat_removed`, which suppresses any further event for it. -/
theorem process_del_logs_nodup (pairs : List (String × Val)) :
    ∀ (del : List String) (removed logs : List Val),
      logs.Nodup → (∀ nm ∈ logs, nm ∈ removed) →
      ((process_del pairs del removed logs).2).Nodup := by
  intro del
  induction del with
  | nil => intro removed logs h _; exact h
  | cons uid rest ih =>
    intro removed logs hnd hsub
    simp only [process_del]
    by_cases hc : nameOf pairs uid ∈ removed
    · rw [if_pos hc]; exact ih removed logs hnd hsub
    · rw [if_neg hc]
      refine ih _ _ ?_ ?_
      · refine List.Nodup.append hnd (List.nodup_singleton _) ?_
        intro a ha hb
        simp only [List.mem_singleton] at hb
        subst hb
        exact hc (hsub _ ha)
      · intro nm h
        rcases List.mem_append.mp h with h | h
        · exact List.mem_append_left _ (hsub nm h)
        · exact List.mem_append_right _ h

/-- When every deleted uid's name is already recorded, the loop logs nothing
and leaves `nat_removed` unchanged. -/
theorem process_del_silent (pairs : List (String × Val)) :
    ∀ (del : List String) (removed logs : List Val),
      (∀ u ∈ del, nameOf pairs u ∈ removed) →
      process_del pairs del removed logs = (removed, logs) := by
  intro del
  induction del with
  | nil => intro removed logs _; rfl
  | cons uid rest ih =>
    intro removed logs h
    simp only [process_del]
    rw [if_pos (h uid (by simp))]
    exact ih removed logs (fun u hu => h u (List.mem_cons_of_mem _ hu))

theorem get_nat_dedup_eq {nat : Col} {pairs : List (String × Val)} (removed : List Val)
    (hp : natNames nat = .ok pairs) :
    get_nat_dedup nat removed = .ok
      (nat.filter (fun p => ¬ (build_del pairs [] []).contains p.1),
       (process_del pairs (build_del pairs [] []) removed []).1,
       (process_del pairs (build_del pairs [] []) removed []).2) := by
  unfold get_nat_dedup
  rw [hp]

/-- Claim C3: colliding display names remove every occupying entry, the
surviving collection never holds two entries with the same name, the log
events of one cycle are duplicate-free, and a second cycle over the same
collection (with the grown `nat_removed`) yields the same survivors, the same
`nat_removed`, and no further log events. -/
theorem C3_nat_dedup_all_removed_logged_once (nat : Col) (pairs : List (String × Val))
    (hnd : (nat.map Prod.fst).Nodup)
    (hp : natNames nat = .ok pairs)
    (hder : ∀ p ∈ nat, nameIsDerived p.2 = true)
    (nat1 : Col) (rem1 logs1 : List Val)
    (h1 : get_nat_dedup nat [] = .ok (nat1, rem1, logs1)) :
    (∀ u v ru rv, (u, ru) ∈ nat → (v, rv) ∈ nat → u ≠ v →
      rlookup ru "name" = rlookup rv "name" →
      clookup nat1 u = none ∧ clookup nat1 v = none) ∧
    (∀ u v ru rv, (u, ru) ∈ nat1 → (v, rv) ∈ nat1 → u ≠ v →
      rlookup ru "name" ≠ rlookup rv "name") ∧
    logs1.Nodup ∧
    get_nat_dedup nat rem1 = .ok (nat1, rem1, []) := by
  obtain ⟨hkeys, hmem⟩ := natNames_spec hp
  set del := build_del pairs [] [] with hdel
  have hchar : ∀ u, u ∈ del ↔ ∃ nm, (u, nm) ∈ pairs ∧ ∃ v, v ≠ u ∧ (v, nm) ∈ pairs := by
    have h := build_del_char pairs [] [] []
      (by simpa [hkeys] using hnd)
      (by intro nm u hl; simp [vslookup] at hl)
      (by intro nm hl u; simp)
      (by intro u; simp)
    simpa using h
  have hrun := get_nat_dedup_eq [] hp
  rw [h1] at hrun
  have h3 := Except.ok.inj hrun
  simp only [Prod.mk.injEq] at h3
  obtain ⟨hnat1, hrem1, hlogs1⟩ := h3
  have hcollide : ∀ u v ru rv, (u, ru) ∈ nat → (v, rv) ∈ nat → u ≠ v →
      rlookup ru "name" = rlookup rv "name" → u ∈ del := by
    intro u v ru rv hu hv hne hname
    obtain ⟨su, hsu⟩ := nameIsDerived_name (hder (u, ru) hu)
    have hsv : rlookup rv "name" = some (.str su) := hname ▸ hsu
    have hup : (u, Val.str su) ∈ pairs := (hmem u _).mpr ⟨ru, hu, hsu⟩
    have hvp : (v, Val.str su) ∈ pairs := (hmem v _).mpr ⟨rv, hv, hsv⟩
    exact (hchar u).mpr ⟨.str su, hup, v, fun hh => hne hh.symm, hvp⟩
  refine ⟨?_, ?_, ?_, ?_⟩
  · intro u v ru rv hu hv hne hname
    have hu' := hcollide u v ru rv hu hv hne hname
    have hv' := hcollide v u rv ru hv hu (fun hh => hne hh.symm) hname.symm
    rw [hnat1]
    exact ⟨clookup_filter_del_none (List.elem_eq_true_of_mem hu'),
      clookup_filter_del_none (List.elem_eq_true_of_mem hv')⟩
  · intro u v ru rv hu1 hv1 hne hname
    rw [hnat1] at hu1 hv1
    obtain ⟨hu, hcu⟩ := mem_of_mem_filter_del hu1
    obtain ⟨hv, _⟩ := mem_of_mem_filter_del hv1
    have hcol := hcollide u v ru rv hu hv hne hname
    have hct := List.elem_eq_true_of_mem hcol
    rw [show (List.contains del u) = List.elem u del from rfl] at hcu
    rw [hct] at hcu
    cases hcu
  · rw [hlogs1]
    exact process_del_logs_nodup pairs del [] [] List.nodup_nil (by intro nm h; cases h)
  · rw [get_nat_dedup_eq rem1 hp]
    have hcov : ∀ u ∈ del, nameOf pairs u ∈ rem1 := by
      intro u hu
      rw [hrem1]
      exact process_del_covers pairs del [] [] u hu
    have hsil := process_del_silent pairs del rem1 [] hcov
    rw [← hdel, hsil, hnat1]

theorem C3_witness :
    (natEx.map Prod.fst).Nodup ∧
    natNames natEx = .ok natPairsEx ∧
    (∀ p ∈ natEx, nameIsDerived p.2 = true) ∧
    get_nat_dedup natEx [] = .ok (natDedupKept, [Val.str "tcp:80"], [Val.str "tcp:80"]) ∧
    ((∀ u v ru rv, (u, ru) ∈ natEx → (v, rv) ∈ natEx → u ≠ v →
        rlookup ru "name" = rlookup rv "name" →
        clookup natDedupKept u = none ∧ clookup natDedupKept v = none) ∧
      (∀ u v ru rv, (u, ru) ∈ natDedupKept → (v, rv) ∈ natDedupKept → u ≠ v →
        rlookup ru "name" ≠ rlookup rv "name") ∧
      ([Val.str "tcp:80"] : List Val).Nodup ∧
      get_nat_dedup natEx [Val.str "tcp:80"]
        = .ok (natDedupKept, [Val.str "tcp:80"], [])) :=
  ⟨by decide, by decide, by decide, by decide,
    C3_nat_dedup_all_removed_logged_once natEx natPairsEx (by decide) (by decide) (by decide)
      natDedupKept [Val.str "tcp:80"] [Val.str "tcp:80"] (by decide)⟩

/-!
## DHCP network mapper lemmas
-/

theorem ensure_record_cons (sp : FieldSpec) (t : List FieldSpec) (r : Rec) :
    ensure_record (sp :: t) r =
      ensure_record t (if rhas r sp.name then r else rset r sp.name sp.default) := rfl

theorem map_record_cons (sp : FieldSpec) (t : List FieldSpec) (ex raw : Rec) :
    map_record (sp :: t) ex raw =
      map_record t
        (match rlookup raw sp.source with
         | some v => rset ex sp.name v
         | none => rset ex sp.name sp.default) raw := rfl

theorem parse_api_model_cons (data : Col) (raw : Rec) (t : List Rec) (key : String)
    (vals ens : List FieldSpec) :
    parse_api_model data (raw :: t) key vals ens =
      parse_api_model
        (match rlookup raw key with
         | some (.str k) =>
           cset data k (ensure_record ens (map_record vals ((clookup data k).getD []) raw))
         | _ => data) t key vals ens := rfl

theorem ensure_record_preserve {ens : List FieldSpec} {r : Rec} {k : String} {w : Val}
    (h : rlookup r k = some w) : rlookup (ensure_record ens r) k = some w := by
  induction ens generalizing r with
  | nil => exact h
  | cons sp t ih =>
    rw [ensure_record_cons]
    by_cases hh : rhas r sp.name
    · simp only [hh, if_true]
      exact ih h
    · simp only [hh, Bool.false_eq_true, if_false]
      have hne : k ≠ sp.name := by
        intro he
        rw [← he] at hh
        exact hh (by simp [rhas, ahas, h])
      exact ih (by rw [rlookup_rset_other _ _ _ _ hne]; exact h)

theorem map_record_preserve {vals : List FieldSpec} {ex raw : Rec} {k : String}
    (hn : ∀ sp ∈ vals, sp.name ≠ k) :
    rlookup (map_record vals ex raw) k = rlookup ex k := by
  induction vals generalizing ex with
  | nil => rfl
  | cons sp t ih =>
    rw [map_record_cons]
    have hne : k ≠ sp.name := fun he => (hn sp (by simp)) he.symm
    cases hsv : rlookup raw sp.source with
    | some v =>
      simp only [hsv]
      rw [ih (fun q hq => hn q (List.mem_cons_of_mem _ hq))]
      exact rlookup_rset_other _ _ _ _ hne
    | none =>
      simp only [hsv]
      rw [ih (fun q hq => hn q (List.mem_cons_of_mem _ hq))]
      exact rlookup_rset_other _ _ _ _ hne

theorem dhcpNetworkVals_no_ipv4 : ∀ sp ∈ dhcpNetworkVals, sp.name ≠ "IPv4Network" := by
  decide

theorem ahas_aset_of_ahas {α : Type} {l : List (String × α)} {k k' : String} {v : α}
    (h : ahas l k = true) : ahas (aset l k' v) k = true := by
  by_cases he : k = k'
  · subst he
    simp [ahas, alookup_aset_self]
  · rw [ahas, alookup_aset_other _ _ _ _ he]
    exact h

theorem not_mem_keys_of_not_ahas {α : Type} {l : List (String × α)} {k : String}
    (h : ¬ ahas l k = true) : k ∉ l.map Prod.fst := by
  intro hc
  exact h (by rw [ahas]; exact alookup_isSome_of_mem hc)

/-- The mapped overlay keeps a present `IPv4Network` value. -/
theorem overlay_ipv4_present {ex raw : Rec} {w : Val}
    (h : rlookup ex "IPv4Network" = some w) :
    rlookup (ensure_record dhcpNetworkEnsure (map_record dhcpNetworkVals ex raw))
      "IPv4Network" = some w :=
  ensure_record_preserve (by rw [map_record_preserve dhcpNetworkVals_no_ipv4]; exact h)

/-- `parse_api_model` keeps the key set duplicate-free. -/
theorem parse_keys_nodup {source : List Rec} {key : String} {vals ens : List FieldSpec} :
    ∀ {data : Col}, (data.map Prod.fst).Nodup →
    ((parse_api_model data source key vals ens).map Prod.fst).Nodup := by
  induction source with
  | nil => intro data h; exact h
  | cons raw t ih =>
    intro data h
    rw [parse_api_model_cons]
    cases hk : rlookup raw key with
    | none => simp only [hk]; exact ih h
    | some kv =>
      cases kv with
      | str k =>
        simp only [hk]
        refine ih ?_
        rw [show (cset data k (ensure_record ens (map_record vals ((clookup data k).getD []) raw)))
            = aset data k _ from rfl, aset_keys]
        by_cases hh : ahas data k
        · simp only [hh, if_true]; exact h
        · simp only [hh, Bool.false_eq_true, if_false]
          have hnm := not_mem_keys_of_not_ahas hh
          simp [List.nodup_append, h, hnm]
      | bool b => simp only [hk]; exact ih h
      | int n => simp only [hk]; exact ih h
      | net a => simp only [hk]; exact ih h
      | time n => simp only [hk]; exact ih h

/-- Presence of a key survives the rest of a parse fold. -/
theorem parse_preserves_present {source : List Rec} {key : String} {vals ens : List FieldSpec} :
    ∀ {data : Col} {k : String}, chas data k = true →
    chas (parse_api_model data source key vals ens) k = true := by
  induction source with
  | nil => intro data k h; exact h
  | cons raw t ih =>
    intro data k h
    rw [parse_api_model_cons]
    cases hk : rlookup raw key with
    | none => simp only [hk]; exact ih h
    | some kv =>
      cases kv with
      | str k' => simp only [hk]; exact ih (ahas_aset_of_ahas h)
      | bool b => simp only [hk]; exact ih h
      | int n => simp only [hk]; exact ih h
      | net a => simp only [hk]; exact ih h
      | time n => simp only [hk]; exact ih h

/-- A raw record with a string key ends up present in the parsed collection. -/
theorem parse_key_present {source : List Rec} {key : String} {vals ens : List FieldSpec}
    {raw : Rec} {k : String} (hraw : raw ∈ source) (hk : rlookup raw key = some (.str k)) :
    ∀ {data : Col}, chas (parse_api_model data source key vals ens) k = true := by
  induction source with
  | nil => cases hraw
  | cons r0 t ih =>
    intro data
    rw [parse_api_model_cons]
    rcases List.mem_cons.mp hraw with he | hmem
    · subst he
      rw [hk]
      exact parse_preserves_present (by simp [chas, ahas, alookup_aset_self])
    · cases hk0 : rlookup r0 key with
      | none => simp only [hk0]; exact ih hmem
      | some kv =>
        cases kv with
        | str k' => simp only [hk0]; exact ih hmem
        | bool b => simp only [hk0]; exact ih hmem
        | int n => simp only [hk0]; exact ih hmem
        | net a => simp only [hk0]; exact ih hmem
        | time n => simp only [hk0]; exact ih hmem

/-- Re-parsing over an existing collection that already carries every source
key and an `IPv4Network` value on every record leaves that field unchanged at
every uid. -/
theorem parse_ipv4_preserved {source : List Rec} :
    ∀ {c : Col},
    (∀ raw ∈ source, ∀ k, rlookup raw "address" = some (.str k) → chas c k = true) →
    (∀ uid r, clookup c uid = some r → (rlookup r "IPv4Network").isSome = true) →
    ∀ uid, (clookup (parse_api_model c source "address" dhcpNetworkVals dhcpNetworkEnsure) uid).map
        (fun r => rlookup r "IPv4Network")
      = (clookup c uid).map (fun r => rlookup r "IPv4Network") := by
  induction source with
  | nil => intro c _ _ uid; rfl
  | cons raw t ih =>
    intro c hkeys hfield uid
    rw [parse_api_model_cons]
    cases hk : rlookup raw "address" with
    | none =>
      simp only [hk]
      exact ih (fun q hq => hkeys q (List.mem_cons_of_mem _ hq)) hfield uid
    | some kv =>
      cases kv with
      | str k =>
        simp only [hk]
        have hpres : chas c k = true := hkeys raw (by simp) k hk
        obtain ⟨r0, hr0⟩ : ∃ r0, clookup c k = some r0 :=
          Option.isSome_iff_exists.mp hpres
        have hgd : (clookup c k).getD [] = r0 := by rw [hr0]; rfl
        obtain ⟨w, hw⟩ : ∃ w, rlookup r0 "IPv4Network" = some w :=
          Option.isSome_iff_exists.mp (hfield k r0 hr0)
        have hnr : rlookup (ensure_record dhcpNetworkEnsure
            (map_record dhcpNetworkVals ((clookup c k).getD []) raw)) "IPv4Network" = some w := by
          rw [hgd]
          exact overlay_ipv4_present hw
        have hstep : ∀ uid', (clookup (cset c k (ensure_record dhcpNetworkEnsure
            (map_record dhcpNetworkVals ((clookup c k).getD []) raw))) uid').map
              (fun r => rlookup r "IPv4Network")
            = (clookup c uid').map (fun r => rlookup r "IPv4Network") := by
          intro uid'
          by_cases he : uid' = k
          · subst he
            have hnr2 : rlookup (ensure_record dhcpNetworkEnsure
                (map_record dhcpNetworkVals r0 raw)) "IPv4Network" = some w := by
              rw [← hgd]; exact hnr
            rw [clookup_cset_self, hr0]
            simp [hnr2, hw]
          · rw [clookup_cset_other _ _ _ _ he]
        rw [ih ?_ ?_ uid, hstep uid]
        · intro q hq k' hk'
          by_cases he : k' = k
          · subst he
            exact ahas_of_alookup_eq_some (clookup_cset_self c k' _)
          · obtain ⟨r2, hr2⟩ := Option.isSome_iff_exists.mp
              (hkeys q (List.mem_cons_of_mem _ hq) k' hk')
            exact ahas_of_alookup_eq_some ((clookup_cset_other c k k' _ he).trans hr2)
        · intro uid' r' hr'
          by_cases he : uid' = k
          · subst he
            rw [clookup_cset_self] at hr'
            rw [← Option.some.inj hr']
            simp [hnr]
          · rw [clookup_cset_other _ _ _ _ he] at hr'
            exact hfield uid' r' hr'
      | bool b =>
        simp only [hk]
        exact ih (fun q hq => hkeys q (List.mem_cons_of_mem _ hq)) hfield uid
      | int n =>
        simp only [hk]
        exact ih (fun q hq => hkeys q (List.mem_cons_of_mem _ hq)) hfield uid
      | net a =>
        simp only [hk]
        exact ih (fun q hq => hkeys q (List.mem_cons_of_mem _ hq)) hfield uid
      | time n =>
        simp only [hk]
        exact ih (fun q hq => hkeys q (List.mem_cons_of_mem _ hq)) hfield uid

/-! ### C8: dhcp-network cache idempotence -/

theorem getItem_eq_ok {r : Rec} {k : String} {v : Val} (h : rlookup r k = some v) :
    getItem r k = .ok v := by
  unfold getItem
  rw [h]

theorem dhcp_network_step_skip {col : Col} {uid : String} {r : Rec} {v : Val}
    (hc : clookup col uid = some r) (hv : rlookup r "IPv4Network" = some v)
    (hne : ¬ v = .str "") : dhcp_network_step col uid = .ok col := by
  simp only [dhcp_network_step, hc, Option.getD_some, getItem, hv]
  rw [if_neg hne]

theorem dhcp_network_step_inv {col col2 : Col} {uid : String}
    (h : dhcp_network_step col uid = .ok col2) :
    ∃ r, clookup col uid = some r ∧
      ((rlookup r "IPv4Network" = some (.str "") ∧ ∃ a, rlookup r "address" = some a ∧
        col2 = cset col uid (rset r "IPv4Network" (ipv4NetworkOf a))) ∨
       (∃ v, rlookup r "IPv4Network" = some v ∧ ¬ v = .str "" ∧ col2 = col)) := by
  cases hc : clookup col uid with
  | none =>
    exfalso
    simp only [dhcp_network_step, hc, Option.getD_none, getItem, alookup_nil] at h
    exact Except.noConfusion h
  | some r =>
    refine ⟨r, rfl, ?_⟩
    simp only [dhcp_network_step, hc, Option.getD_some, getItem] at h
    cases hv : rlookup r "IPv4Network" with
    | none =>
      simp only [hv] at h
      exact Except.noConfusion h
    | some v =>
      simp only [hv] at h
      by_cases hcv : v = .str ""
      · rw [if_pos hcv] at h
        cases ha : rlookup r "address" with
        | none =>
          simp only [getItem, ha] at h
          exact Except.noConfusion h
        | some a =>
          simp only [getItem, ha] at h
          exact Or.inl ⟨by rw [hcv], a, rfl, (Except.ok.inj h).symm⟩
      · rw [if_neg hcv] at h
        exact Or.inr ⟨v, rfl, hcv, (Except.ok.inj h).symm⟩

theorem dhcp_network_loop_cons (uid : String) (rest : List String) (col : Col) :
    dhcp_network_loop (uid :: rest) col =
      match dhcp_network_step col uid with
      | .error e => .error e
      | .ok col2 => dhcp_network_loop rest col2 := rfl

theorem dhcp_network_loop_cons_inv {uid : String} {rest : List String} {col col' : Col}
    (h : dhcp_network_loop (uid :: rest) col = .ok col') :
    ∃ col2, dhcp_network_step col uid = .ok col2 ∧ dhcp_network_loop rest col2 = .ok col' := by
  rw [dhcp_network_loop_cons] at h
  cases hs : dhcp_network_step col uid with
  | error e => rw [hs] at h; exact Except.noConfusion h
  | ok col2 => rw [hs] at h; exact ⟨col2, rfl, h⟩

theorem dhcp_network_loop_frame :
    ∀ (ks : List String) {col col' : Col}, dhcp_network_loop ks col = .ok col' →
    ∀ uid, uid ∉ ks → clookup col' uid = clookup col uid := by
  intro ks
  induction ks with
  | nil => intro col col' h uid _; rw [← Except.ok.inj h]
  | cons uid0 rest ih =>
    intro col col' h uid hn
    obtain ⟨col2, hs, hl⟩ := dhcp_network_loop_cons_inv h
    have h1 : clookup col' uid = clookup col2 uid :=
      ih hl uid (fun hm => hn (List.mem_cons_of_mem _ hm))
    rw [h1]
    obtain ⟨r, hc, hcase⟩ := dhcp_network_step_inv hs
    rcases hcase with ⟨_, a, _, hcol2⟩ | ⟨v, _, _, hcol2⟩
    · rw [hcol2]
      exact clookup_cset_other _ _ _ _ (fun he => hn (he ▸ List.mem_cons_self _ _))
    · rw [hcol2]

theorem dhcp_network_loop_keys :
    ∀ (ks : List String) {col col' : Col}, dhcp_network_loop ks col = .ok col' →
    col'.map Prod.fst = col.map Prod.fst := by
  intro ks
  induction ks with
  | nil => intro col col' h; rw [← Except.ok.inj h]
  | cons uid0 rest ih =>
    intro col col' h
    obtain ⟨col2, hs, hl⟩ := dhcp_network_loop_cons_inv h
    rw [ih hl]
    obtain ⟨r, hc, hcase⟩ := dhcp_network_step_inv hs
    rcases hcase with ⟨_, a, _, hcol2⟩ | ⟨v, _, _, hcol2⟩
    · rw [hcol2,
        show cset col uid0 (rset r "IPv4Network" (ipv4NetworkOf a))
          = aset col uid0 (rset r "IPv4Network" (ipv4NetworkOf a)) from rfl,
        aset_keys, if_pos (ahas_of_alookup_eq_some hc)]
    · rw [hcol2]

theorem dhcp_network_loop_post :
    ∀ (ks : List String) {col col' : Col}, ks.Nodup →
    dhcp_network_loop ks col = .ok col' →
    ∀ uid ∈ ks, ∀ r, clookup col' uid = some r →
      ∃ v, rlookup r "IPv4Network" = some v ∧ ¬ v = .str "" := by
  intro ks
  induction ks with
  | nil => intro col col' _ _ uid hm; exact absurd hm (List.not_mem_nil _)
  | cons uid0 rest ih =>
    intro col col' hnd h uid hm r hr
    obtain ⟨col2, hs, hl⟩ := dhcp_network_loop_cons_inv h
    rcases List.mem_cons.mp hm with he | hm2
    · have hr0 : clookup col' uid0 = some r := he ▸ hr
      have hn0 : uid0 ∉ rest := (List.nodup_cons.mp hnd).1
      have hfr : clookup col' uid0 = clookup col2 uid0 := dhcp_network_loop_frame rest hl uid0 hn0
      obtain ⟨r0, hc, hcase⟩ := dhcp_network_step_inv hs
      rcases hcase with ⟨hemp, a, ha, hcol2⟩ | ⟨v, hv, hne, hcol2⟩
      · rw [hfr, hcol2, clookup_cset_self] at hr0
        refine ⟨ipv4NetworkOf a, ?_, ?_⟩
        · rw [← Option.some.inj hr0]
          exact rlookup_rset_self _ _ _
        · exact fun hcon => Val.noConfusion hcon
      · rw [hfr, hcol2, hc] at hr0
        exact ⟨v, (Option.some.inj hr0) ▸ hv, hne⟩
    · exact ih (List.nodup_cons.mp hnd).2 hl uid hm2 r hr

theorem dhcp_network_loop_ok :
    ∀ (ks : List String) (col : Col),
    (∀ uid ∈ ks, ∃ r v, clookup col uid = some r ∧ rlookup r "IPv4Network" = some v ∧
      ¬ v = .str "") →
    dhcp_network_loop ks col = .ok col := by
  intro ks
  induction ks with
  | nil => intro col _; rfl
  | cons uid0 rest ih =>
    intro col h
    obtain ⟨r, v, hc, hv, hne⟩ := h uid0 (List.mem_cons_self _ _)
    rw [dhcp_network_loop_cons, dhcp_network_step_skip hc hv hne]
    exact ih col (fun u hu => h u (List.mem_cons_of_mem _ hu))

/-- C8: the dhcp-network mapper of `get_dhcp` is idempotent across cycles.
After one successful run over raw source records (starting from a collection
with duplicate-free keys), a second run on the same raw input succeeds and
leaves every entry's parsed `IPv4Network` value unchanged: the network is
computed from `address` only when the field still holds the empty-string
default, and after a successful run no entry does. -/
theorem C8_network_cache_idempotent (data : Col) (source : List Rec)
    (hnd : (data.map Prod.fst).Nodup) (c1 : Col)
    (h1 : get_dhcp_network data source = .ok c1) :
    ∃ c2, get_dhcp_network c1 source = .ok c2 ∧
      ∀ uid, (clookup c2 uid).map (fun r => rlookup r "IPv4Network")
        = (clookup c1 uid).map (fun r => rlookup r "IPv4Network") := by
  have h1' : dhcp_network_loop
      ((parse_api_model data source "address" dhcpNetworkVals dhcpNetworkEnsure).map Prod.fst)
      (parse_api_model data source "address" dhcpNetworkVals dhcpNetworkEnsure) = .ok c1 := h1
  have hknd : ((parse_api_model data source "address" dhcpNetworkVals
      dhcpNetworkEnsure).map Prod.fst).Nodup := parse_keys_nodup hnd
  have hkeys1 : c1.map Prod.fst
      = (parse_api_model data source "address" dhcpNetworkVals dhcpNetworkEnsure).map Prod.fst :=
    dhcp_network_loop_keys _ h1'
  have hfield1 : ∀ uid r, clookup c1 uid = some r →
      ∃ v, rlookup r "IPv4Network" = some v ∧ ¬ v = .str "" := by
    intro uid r hr
    have hm : uid ∈ c1.map Prod.fst := mem_keys_of_alookup_eq_some hr
    rw [hkeys1] at hm
    exact dhcp_network_loop_post _ hknd h1' uid hm r hr
  have hkeys_src : ∀ raw ∈ source, ∀ k, rlookup raw "address" = some (.str k) →
      chas c1 k = true := by
    intro raw hraw k hk
    have hcol : chas (parse_api_model data source "address" dhcpNetworkVals
        dhcpNetworkEnsure) k = true := parse_key_present hraw hk
    obtain ⟨r, hr⟩ := Option.isSome_iff_exists.mp hcol
    have hm : k ∈ (parse_api_model data source "address" dhcpNetworkVals
        dhcpNetworkEnsure).map Prod.fst := mem_keys_of_alookup_eq_some hr
    rw [← hkeys1] at hm
    obtain ⟨r2, hr2⟩ := Option.isSome_iff_exists.mp (alookup_isSome_of_mem hm)
    exact ahas_of_alookup_eq_some hr2
  have hparse2 : ∀ uid,
      (clookup (parse_api_model c1 source "address" dhcpNetworkVals dhcpNetworkEnsure) uid).map
          (fun r => rlookup r "IPv4Network")
        = (clookup c1 uid).map (fun r => rlookup r "IPv4Network") :=
    parse_ipv4_preserved hkeys_src (fun uid r hr => by
      obtain ⟨v, hv, _⟩ := hfield1 uid r hr
      rw [hv]
      rfl)
  have hgood2 : ∀ uid ∈ (parse_api_model c1 source "address" dhcpNetworkVals
      dhcpNetworkEnsure).map Prod.fst,
      ∃ r v, clookup (parse_api_model c1 source "address" dhcpNetworkVals dhcpNetworkEnsure) uid
          = some r ∧ rlookup r "IPv4Network" = some v ∧ ¬ v = .str "" := by
    intro uid hm
    obtain ⟨r2, hr2a⟩ := Option.isSome_iff_exists.mp (alookup_isSome_of_mem hm)
    have hr2 : clookup (parse_api_model c1 source "address" dhcpNetworkVals dhcpNetworkEnsure) uid
        = some r2 := hr2a
    have hthis := hparse2 uid
    rw [hr2] at hthis
    cases hc1 : clookup c1 uid with
    | none =>
      rw [hc1] at hthis
      simp at hthis
    | some r1 =>
      rw [hc1] at hthis
      obtain ⟨v, hv, hne⟩ := hfield1 uid r1 hc1
      have heq : rlookup r2 "IPv4Network" = rlookup r1 "IPv4Network" := by
        simpa using hthis
      exact ⟨r2, v, hr2, heq.trans hv, hne⟩
  have hloop2 : dhcp_network_loop
      ((parse_api_model c1 source "address" dhcpNetworkVals dhcpNetworkEnsure).map Prod.fst)
      (parse_api_model c1 source "address" dhcpNetworkVals dhcpNetworkEnsure)
      = .ok (parse_api_model c1 source "address" dhcpNetworkVals dhcpNetworkEnsure) :=
    dhcp_network_loop_ok _ _ hgood2
  exact ⟨parse_api_model c1 source "address" dhcpNetworkVals dhcpNetworkEnsure, hloop2, hparse2⟩

/-- C8 witness: the idempotence theorem applied to the one-record example. -/
theorem C8_witness :
    (([] : Col).map Prod.fst).Nodup ∧
    get_dhcp_network [] dhcpNetworkSourceEx = .ok dhcpNetworkColEx ∧
    ∃ c2, get_dhcp_network dhcpNetworkColEx dhcpNetworkSourceEx = .ok c2 ∧
      ∀ uid, (clookup c2 uid).map (fun r => rlookup r "IPv4Network")
        = (clookup dhcpNetworkColEx uid).map (fun r => rlookup r "IPv4Network") :=
  ⟨by decide, by decide,
    C8_network_cache_idempotent [] dhcpNetworkSourceEx (by decide) dhcpNetworkColEx (by decide)⟩

/-! ### C5: hostname resolution precedence -/

theorem alookup_singleton {α : Type} (k u : String) (v : α) :
    alookup [(k, v)] u = if k = u then some v else none := by
  rw [alookup_cons, alookup_nil]

theorem rlookup_backfill_of_some :
    ∀ (ds : List (String × Val)) {r : Rec} {k : String} {v : Val},
    rlookup r k = some v → rlookup (backfill ds r) k = some v := by
  intro ds
  induction ds with
  | nil => intro r k v h; exact h
  | cons p ds ih =>
    obtain ⟨k0, d0⟩ := p
    intro r k v h
    simp only [backfill]
    by_cases hp : rhas r k0 = true
    · rw [if_pos hp]
      exact ih h
    · rw [if_neg hp]
      refine ih ?_
      have hk : k ≠ k0 := by
        intro he
        rw [he] at h
        exact hp (ahas_of_alookup_eq_some h)
      rw [rlookup_rset_other _ _ _ _ hk]
      exact h

theorem rhas_backfill_of_rhas (ds : List (String × Val)) {r : Rec} {k : String}
    (h : rhas r k = true) : rhas (backfill ds r) k = true := by
  obtain ⟨v, hv⟩ := Option.isSome_iff_exists.mp h
  exact ahas_of_alookup_eq_some (rlookup_backfill_of_some ds hv)

theorem rhas_backfill_of_mem :
    ∀ (ds : List (String × Val)) {r : Rec} {k : String} {d : Val},
    (k, d) ∈ ds → rhas (backfill ds r) k = true := by
  intro ds
  induction ds with
  | nil => intro r k d h; exact absurd h (List.not_mem_nil _)
  | cons p ds ih =>
    obtain ⟨k0, d0⟩ := p
    intro r k d h
    simp only [backfill]
    rcases List.mem_cons.mp h with he | hm
    · rw [Prod.mk.injEq] at he
      obtain ⟨hk, -⟩ := he
      subst hk
      by_cases hp : rhas r k = true
      · rw [if_pos hp]
        exact rhas_backfill_of_rhas ds hp
      · rw [if_neg hp]
        exact rhas_backfill_of_rhas ds (rhas_rset_self r k d0)
    · by_cases hp : rhas r k0 = true
      · rw [if_pos hp]; exact ih hm
      · rw [if_neg hp]; exact ih hm

theorem dnsWF_fields {r : Rec} (h : dnsWF r = true) :
    (∃ w, rlookup r "address" = some w) ∧ ∃ s, rlookup r "name" = some (.str s) := by
  unfold dnsWF at h
  obtain ⟨h1, h2⟩ := Bool.and_eq_true_iff.mp h
  refine ⟨Option.isSome_iff_exists.mp h1, ?_⟩
  cases hn : rlookup r "name" with
  | none => rw [hn] at h2; exact Bool.noConfusion h2
  | some nv =>
    rw [hn] at h2
    cases nv with
    | str s => exact ⟨s, rfl⟩
    | bool b => exact Bool.noConfusion h2
    | int n => exact Bool.noConfusion h2
    | net a => exact Bool.noConfusion h2
    | time n => exact Bool.noConfusion h2

theorem dns_scan_eq_ref :
    ∀ (dns : Col) (a : Val), (∀ p ∈ dns, dnsWF p.2 = true) →
    dns_scan dns a = .ok (dnsFirstMatch dns a) := by
  intro dns
  induction dns with
  | nil => intro a _; rfl
  | cons p rest ih =>
    obtain ⟨k0, dr⟩ := p
    intro a h
    obtain ⟨⟨da, hda⟩, s, hs⟩ := dnsWF_fields (h (k0, dr) (List.mem_cons_self _ _))
    simp only [dns_scan, dnsFirstMatch, getItem_eq_ok hda, hda]
    by_cases hd : da = a
    · rw [if_pos hd, if_pos (congrArg some hd), getItem_eq_ok hs, hs]
    · rw [if_neg hd, if_neg (fun hc => hd (Option.some.inj hc))]
      exact ih a (fun q hq => h q (List.mem_cons_of_mem _ hq))

theorem dnsFirstMatch_str :
    ∀ (dns : Col) {a nm : Val}, (∀ p ∈ dns, dnsWF p.2 = true) →
    dnsFirstMatch dns a = some nm → ∃ s, nm = .str s := by
  intro dns
  induction dns with
  | nil => intro a nm _ h; exact Option.noConfusion h
  | cons p rest ih =>
    obtain ⟨k0, dr⟩ := p
    intro a nm h hm
    obtain ⟨⟨da, hda⟩, s, hs⟩ := dnsWF_fields (h (k0, dr) (List.mem_cons_self _ _))
    simp only [dnsFirstMatch] at hm
    by_cases hd : rlookup dr "address" = some a
    · rw [if_pos hd, hs] at hm
      exact ⟨s, (Option.some.inj hm).symm⟩
    · rw [if_neg hd] at hm
      exact ih (fun q hq => h q (List.mem_cons_of_mem _ hq)) hm

theorem resolve_dns_step_unres {dns : Col} {r1 : Rec} :
    resolve_dns_step dns r1 (.str "unknown") = .ok r1 := by
  simp [resolve_dns_step]

theorem resolve_dns_step_none {dns : Col} {r1 : Rec} {a : Val}
    (ha : ¬ a = .str "unknown") (h : ∀ p ∈ dns, dnsWF p.2 = true)
    (hm : dnsFirstMatch dns a = none) :
    resolve_dns_step dns r1 a = .ok r1 := by
  simp [resolve_dns_step, dns_scan_eq_ref dns a h, hm, ha]

theorem resolve_dns_step_some {dns : Col} {r1 : Rec} {a : Val} {s : String}
    (ha : ¬ a = .str "unknown") (h : ∀ p ∈ dns, dnsWF p.2 = true)
    (hm : dnsFirstMatch dns a = some (.str s)) :
    resolve_dns_step dns r1 a
      = .ok (rset r1 "hostname" (.str ((pySplit '.' s).headD ""))) := by
  simp [resolve_dns_step, dns_scan_eq_ref dns a h, hm, ha, firstLabel]

theorem resolve_dhcp_chain_done {dhcp : Col} {uid : String} {r2 : Rec} {hv : Val}
    (h2 : rlookup r2 "hostname" = some hv) (hne : ¬ hv = .str "unknown") :
    resolve_dhcp_chain dhcp uid r2 = .ok r2 := by
  simp [resolve_dhcp_chain, getItem_eq_ok h2, hne]

theorem resolve_dhcp_chain_unknown {dhcp : Col} {uid : String} {r2 : Rec}
    (hdhcp : ∀ dr, clookup dhcp uid = some dr → dhcpWF dr = true)
    (h2 : rlookup r2 "hostname" = some (.str "unknown")) :
    resolve_dhcp_chain dhcp uid r2 = .ok (rset r2 "hostname" (dhcpChainRef dhcp uid)) := by
  cases hdu : clookup dhcp uid with
  | none =>
    have hch : chas dhcp uid = false := by simp [chas, ahas, hdu]
    simp [resolve_dhcp_chain, getItem_eq_ok h2, hch, dhcpChainRef, hdu]
  | some dr =>
    have hwf := hdhcp dr hdu
    unfold dhcpWF at hwf
    obtain ⟨hcm, hhm⟩ := Bool.and_eq_true_iff.mp hwf
    obtain ⟨cm, hcm2⟩ := Option.isSome_iff_exists.mp hcm
    obtain ⟨hm, hhm2⟩ := Option.isSome_iff_exists.mp hhm
    have hch : chas dhcp uid = true := ahas_of_alookup_eq_some hdu
    by_cases hc0 : cm = .str ""
    · by_cases hh0 : hm = .str "unknown"
      · simp [resolve_dhcp_chain, getItem_eq_ok h2, hch, hdu, getItem_eq_ok hcm2,
          getItem_eq_ok hhm2, hc0, hh0, dhcpChainRef, hcm2, hhm2]
      · simp [resolve_dhcp_chain, getItem_eq_ok h2, hch, hdu, getItem_eq_ok hcm2,
          getItem_eq_ok hhm2, hc0, hh0, dhcpChainRef, hcm2, hhm2]
    · simp [resolve_dhcp_chain, getItem_eq_ok h2, hch, hdu, getItem_eq_ok hcm2,
        hc0, dhcpChainRef, hcm2]

theorem resolve_avail_spec {host : Col} {uid : String} {r3 : Rec} {addr itf : Val}
    (ping : Val → Val → Bool) (now : Val)
    (haddr : rlookup r3 "address" = some addr)
    (hitf : rlookup r3 "interface" = some itf)
    (hav : rhas r3 "available" = true) :
    ∃ r', resolve_avail ping now host uid r3 = .ok (cset host uid r') ∧
      rlookup r' "hostname" = rlookup r3 "hostname" ∧
      rhas r' "available" = true := by
  obtain ⟨av0, hav0⟩ := Option.isSome_iff_exists.mp hav
  by_cases hcnd : addr ≠ .str "unknown" ∧ itf ≠ .str "unknown"
  · refine ⟨if (Val.bool (ping addr itf)).truthy
        then rset (rset r3 "available" (.bool (ping addr itf))) "last-seen" now
        else rset r3 "available" (.bool (ping addr itf)), ?_, ?_, ?_⟩
    · simp only [resolve_avail, getItem_eq_ok haddr, getItem_eq_ok hitf]
      rw [if_pos hcnd, getItem_eq_ok (rlookup_rset_self r3 "available" (.bool (ping addr itf)))]
    · by_cases ht : (Val.bool (ping addr itf)).truthy
      · rw [if_pos ht, rlookup_rset_other _ _ _ _ (by decide),
          rlookup_rset_other _ _ _ _ (by decide)]
      · rw [if_neg ht, rlookup_rset_other _ _ _ _ (by decide)]
    · by_cases ht : (Val.bool (ping addr itf)).truthy
      · rw [if_pos ht, rhas_rset_other _ _ _ _ (by decide)]
        exact rhas_rset_self _ _ _
      · rw [if_neg ht]
        exact rhas_rset_self _ _ _
  · refine ⟨if av0.truthy then rset r3 "last-seen" now else r3, ?_, ?_, ?_⟩
    · simp only [resolve_avail, getItem_eq_ok haddr, getItem_eq_ok hitf]
      rw [if_neg hcnd, getItem_eq_ok hav0]
    · by_cases ht : av0.truthy
      · rw [if_pos ht, rlookup_rset_other _ _ _ _ (by decide)]
      · rw [if_neg ht]
    · by_cases ht : av0.truthy
      · rw [if_pos ht, rhas_rset_other _ _ _ _ (by decide)]
        exact hav
      · rw [if_neg ht]
        exact hav

theorem resolve_host_core_unres {dhcp dns host : Col} {uid : String} {r1 r2 r3 : Rec}
    {a : Val} {ping : Val → Val → Bool} {now : Val}
    (hhn : rlookup r1 "hostname" = some (.str "unknown"))
    (haddr : rlookup r1 "address" = some a)
    (hstep : resolve_dns_step dns r1 a = .ok r2)
    (hchain : resolve_dhcp_chain dhcp uid r2 = .ok r3) :
    resolve_host_core dhcp dns ping now host uid r1 = resolve_avail ping now host uid r3 := by
  unfold resolve_host_core
  rw [getItem_eq_ok hhn]
  simp only [getItem_eq_ok haddr, hstep, hchain, eq_self_iff_true, if_true]

theorem resolve_host_core_res {dhcp dns host : Col} {uid : String} {r1 : Rec}
    {hn : Val} {ping : Val → Val → Bool} {now : Val}
    (hhn : rlookup r1 "hostname" = some hn) (hne : ¬ hn = .str "unknown") :
    resolve_host_core dhcp dns ping now host uid r1 = resolve_avail ping now host uid r1 := by
  unfold resolve_host_core
  rw [getItem_eq_ok hhn]
  simp only [if_neg hne]

theorem resolve_host_eq_core {host : Col} {uid : String} {r0 : Rec}
    (dhcp dns : Col) (ping : Val → Val → Bool) (now : Val)
    (hc : clookup host uid = some r0) :
    resolve_host dhcp dns ping now host uid
      = resolve_host_core dhcp dns ping now host uid (backfill host_default_pairs r0) := by
  unfold resolve_host
  rw [show (clookup host uid).getD [] = r0 from by rw [hc]; rfl]

theorem resolve_host_hostname {dhcp dns host : Col} {uid : String} {r0 : Rec} {a : Val}
    {ping : Val → Val → Bool} {now : Val}
    (hc : clookup host uid = some r0)
    (hav : rhas r0 "available" = true)
    (hhn : rlookup (backfill host_default_pairs r0) "hostname" = some (.str "unknown"))
    (haddr : rlookup (backfill host_default_pairs r0) "address" = some a)
    (hdns : ∀ p ∈ dns, dnsWF p.2 = true)
    (hdhcp : ∀ dr, clookup dhcp uid = some dr → dhcpWF dr = true) :
    ∃ r', resolve_host dhcp dns ping now host uid = .ok (cset host uid r') ∧
      rlookup r' "hostname" = some (hostnameRef dhcp dns uid a) ∧
      rhas r' "available" = true := by
  obtain ⟨itf, hitf⟩ : ∃ w, rlookup (backfill host_default_pairs r0) "interface" = some w :=
    Option.isSome_iff_exists.mp (rhas_backfill_of_mem host_default_pairs
      (show ("interface", Val.str "unknown") ∈ host_default_pairs by decide))
  have hav1 : rhas (backfill host_default_pairs r0) "available" = true :=
    rhas_backfill_of_rhas host_default_pairs hav
  by_cases ha : a = .str "unknown"
  · have hstep : resolve_dns_step dns (backfill host_default_pairs r0) a
        = .ok (backfill host_default_pairs r0) := by
      rw [ha]; exact resolve_dns_step_unres
    have hres := (resolve_host_eq_core dhcp dns ping now hc).trans
      (resolve_host_core_unres hhn haddr hstep (resolve_dhcp_chain_unknown hdhcp hhn))
    obtain ⟨r', hr', hname, hava⟩ := resolve_avail_spec ping now
      (show rlookup (rset (backfill host_default_pairs r0) "hostname" (dhcpChainRef dhcp uid))
          "address" = some a by
        rw [rlookup_rset_other _ _ _ _ (by decide)]; exact haddr)
      (show rlookup (rset (backfill host_default_pairs r0) "hostname" (dhcpChainRef dhcp uid))
          "interface" = some itf by
        rw [rlookup_rset_other _ _ _ _ (by decide)]; exact hitf)
      (show rhas (rset (backfill host_default_pairs r0) "hostname" (dhcpChainRef dhcp uid))
          "available" = true by
        rw [rhas_rset_other _ _ _ _ (by decide)]; exact hav1)
    refine ⟨r', hres.trans hr', ?_, hava⟩
    rw [hname, rlookup_rset_self, ha]
    simp [hostnameRef]
  · cases hm : dnsFirstMatch dns a with
    | none =>
      have hstep := @resolve_dns_step_none dns (backfill host_default_pairs r0) a ha hdns hm
      have hres := (resolve_host_eq_core dhcp dns ping now hc).trans
        (resolve_host_core_unres hhn haddr hstep (resolve_dhcp_chain_unknown hdhcp hhn))
      obtain ⟨r', hr', hname, hava⟩ := resolve_avail_spec ping now
        (show rlookup (rset (backfill host_default_pairs r0) "hostname" (dhcpChainRef dhcp uid))
            "address" = some a by
          rw [rlookup_rset_other _ _ _ _ (by decide)]; exact haddr)
        (show rlookup (rset (backfill host_default_pairs r0) "hostname" (dhcpChainRef dhcp uid))
            "interface" = some itf by
          rw [rlookup_rset_other _ _ _ _ (by decide)]; exact hitf)
        (show rhas (rset (backfill host_default_pairs r0) "hostname" (dhcpChainRef dhcp uid))
            "available" = true by
          rw [rhas_rset_other _ _ _ _ (by decide)]; exact hav1)
      refine ⟨r', hres.trans hr', ?_, hava⟩
      rw [hname, rlookup_rset_self]
      simp [hostnameRef, ha, hm]
    | some nm =>
      obtain ⟨s, hs⟩ := dnsFirstMatch_str dns hdns hm
      subst hs
      have hstep := @resolve_dns_step_some dns (backfill host_default_pairs r0) a s ha hdns hm
      by_cases hlu : Val.str ((pySplit '.' s).headD "") = .str "unknown"
      · have h2 : rlookup (rset (backfill host_default_pairs r0) "hostname"
            (.str ((pySplit '.' s).headD ""))) "hostname" = some (.str "unknown") := by
          rw [rlookup_rset_self, hlu]
        have hres := (resolve_host_eq_core dhcp dns ping now hc).trans
          (resolve_host_core_unres hhn haddr hstep (resolve_dhcp_chain_unknown hdhcp h2))
        obtain ⟨r', hr', hname, hava⟩ := resolve_avail_spec ping now
          (show rlookup (rset (rset (backfill host_default_pairs r0) "hostname"
                (.str ((pySplit '.' s).headD ""))) "hostname" (dhcpChainRef dhcp uid))
              "address" = some a by
            rw [rlookup_rset_other _ _ _ _ (by decide),
              rlookup_rset_other _ _ _ _ (by decide)]
            exact haddr)
          (show rlookup (rset (rset (backfill host_default_pairs r0) "hostname"
                (.str ((pySplit '.' s).headD ""))) "hostname" (dhcpChainRef dhcp uid))
              "interface" = some itf by
            rw [rlookup_rset_other _ _ _ _ (by decide),
              rlookup_rset_other _ _ _ _ (by decide)]
            exact hitf)
          (show rhas (rset (rset (backfill host_default_pairs r0) "hostname"
                (.str ((pySplit '.' s).headD ""))) "hostname" (dhcpChainRef dhcp uid))
              "available" = true by
            rw [rhas_rset_other _ _ _ _ (by decide), rhas_rset_other _ _ _ _ (by decide)]
            exact hav1)
        refine ⟨r', hres.trans hr', ?_, hava⟩
        rw [hname, rlookup_rset_self]
        have hlu2 : (pySplit '.' s).head?.getD "" = "unknown" := by
          simpa using Val.str.inj hlu
        simp [hostnameRef, ha, hm, firstLabelRef]
        rw [if_pos hlu2]
      · have h2 : rlookup (rset (backfill host_default_pairs r0) "hostname"
            (.str ((pySplit '.' s).headD ""))) "hostname"
            = some (.str ((pySplit '.' s).headD "")) := rlookup_rset_self _ _ _
        have hres := (resolve_host_eq_core dhcp dns ping now hc).trans
          (resolve_host_core_unres hhn haddr hstep
            (@resolve_dhcp_chain_done dhcp uid _ _ h2 hlu))
        obtain ⟨r', hr', hname, hava⟩ := resolve_avail_spec ping now
          (show rlookup (rset (backfill host_default_pairs r0) "hostname"
                (.str ((pySplit '.' s).headD ""))) "address" = some a by
            rw [rlookup_rset_other _ _ _ _ (by decide)]; exact haddr)
          (show rlookup (rset (backfill host_default_pairs r0) "hostname"
                (.str ((pySplit '.' s).headD ""))) "interface" = some itf by
            rw [rlookup_rset_other _ _ _ _ (by decide)]; exact hitf)
          (show rhas (rset (backfill host_default_pairs r0) "hostname"
                (.str ((pySplit '.' s).headD ""))) "available" = true by
            rw [rhas_rset_other _ _ _ _ (by decide)]; exact hav1)
        refine ⟨r', hres.trans hr', ?_, hava⟩
        rw [hname, rlookup_rset_self]
        have hlu2 : ¬ (pySplit '.' s).head?.getD "" = "unknown" := by
          intro he
          refine hlu (congrArg Val.str ?_)
          simpa using he
        simp [hostnameRef, ha, hm, firstLabelRef]
        rw [if_neg hlu2]

theorem resolve_host_total {dhcp dns host : Col} {uid : String} {r0 : Rec}
    {ping : Val → Val → Bool} {now : Val}
    (hc : clookup host uid = some r0)
    (hav : rhas r0 "available" = true)
    (hdns : ∀ p ∈ dns, dnsWF p.2 = true)
    (hdhcp : ∀ dr, clookup dhcp uid = some dr → dhcpWF dr = true) :
    ∃ r', resolve_host dhcp dns ping now host uid = .ok (cset host uid r') ∧
      rhas r' "available" = true := by
  obtain ⟨hn, hhn⟩ : ∃ w, rlookup (backfill host_default_pairs r0) "hostname" = some w :=
    Option.isSome_iff_exists.mp (rhas_backfill_of_mem host_default_pairs
      (show ("hostname", Val.str "unknown") ∈ host_default_pairs by decide))
  obtain ⟨a, haddr⟩ : ∃ w, rlookup (backfill host_default_pairs r0) "address" = some w :=
    Option.isSome_iff_exists.mp (rhas_backfill_of_mem host_default_pairs
      (show ("address", Val.str "unknown") ∈ host_default_pairs by decide))
  by_cases hu : hn = .str "unknown"
  · obtain ⟨r', h1, _, h3⟩ := resolve_host_hostname hc hav (hu ▸ hhn) haddr hdns hdhcp
    exact ⟨r', h1, h3⟩
  · obtain ⟨itf, hitf⟩ : ∃ w, rlookup (backfill host_default_pairs r0) "interface" = some w :=
      Option.isSome_iff_exists.mp (rhas_backfill_of_mem host_default_pairs
        (show ("interface", Val.str "unknown") ∈ host_default_pairs by decide))
    have hav1 : rhas (backfill host_default_pairs r0) "available" = true :=
      rhas_backfill_of_rhas host_default_pairs hav
    obtain ⟨r', hr', _, hava⟩ := resolve_avail_spec ping now haddr hitf hav1
    have hres := (resolve_host_eq_core dhcp dns ping now hc).trans
      (resolve_host_core_res hhn hu)
    exact ⟨r', hres.trans hr', hava⟩

theorem host_add_from_noop :
    ∀ (src : Col) (tag : String) (host : Col),
    (∀ u ∈ src.map Prod.fst, chas host u = true) →
    host_add_from src tag host = .ok host := by
  intro src
  induction src with
  | nil => intro tag host _; rfl
  | cons p rest ih =>
    obtain ⟨u0, vals⟩ := p
    intro tag host h
    have hc : chas host u0 = true := h u0 (by simp)
    simp only [host_add_from, hc, if_true]
    exact ih tag host (fun u hu => h u (by simp [hu]))

theorem chas_cset_eq {host : Col} {u : String} {r : Rec} (h : chas host u = true) :
    ∀ w, chas (cset host u r) w = chas host w := by
  intro w
  by_cases he : w = u
  · subst he
    simp only [chas, ahas, alookup_aset_self, Option.isSome_some]
    exact h.symm
  · simp [chas, ahas, alookup_aset_other _ _ _ _ he]

theorem process_host_loop_cons (dhcp dns : Col) (ping : Val → Val → Bool) (now : Val)
    (u0 : String) (rest : List String) (host : Col) :
    process_host_loop dhcp dns ping now (u0 :: rest) host =
      match resolve_host dhcp dns ping now host u0 with
      | .error e => .error e
      | .ok h1 => process_host_loop dhcp dns ping now rest h1 := rfl

theorem process_host_loop_append_ok {dhcp dns : Col} {ping : Val → Val → Bool} {now : Val} :
    ∀ {l1 : List String} {host h1 : Col} (l2 : List String),
    process_host_loop dhcp dns ping now l1 host = .ok h1 →
    process_host_loop dhcp dns ping now (l1 ++ l2) host
      = process_host_loop dhcp dns ping now l2 h1 := by
  intro l1
  induction l1 with
  | nil =>
    intro host h1 l2 h
    rw [List.nil_append, ← Except.ok.inj h]
  | cons u0 l1 ih =>
    intro host h1 l2 h
    rw [process_host_loop_cons] at h
    cases hres : resolve_host dhcp dns ping now host u0 with
    | error e =>
      rw [hres] at h
      exact Except.noConfusion h
    | ok hmid =>
      rw [hres] at h
      rw [List.cons_append, process_host_loop_cons, hres]
      exact ih l2 h

theorem process_host_loop_ok {dhcp dns : Col} {ping : Val → Val → Bool} {now : Val}
    (hdns : ∀ p ∈ dns, dnsWF p.2 = true)
    (hdhcp : ∀ u dr, clookup dhcp u = some dr → dhcpWF dr = true) :
    ∀ (ks : List String) (host : Col),
    (∀ u r, clookup host u = some r → rhas r "available" = true) →
    (∀ u ∈ ks, chas host u = true) →
    ∃ h2, process_host_loop dhcp dns ping now ks host = .ok h2 ∧
      (∀ u r, clookup h2 u = some r → rhas r "available" = true) ∧
      (∀ u, u ∉ ks → clookup h2 u = clookup host u) ∧
      (∀ u, chas h2 u = chas host u) := by
  intro ks
  induction ks with
  | nil =>
    intro host hall _
    exact ⟨host, rfl, hall, fun _ _ => rfl, fun _ => rfl⟩
  | cons u0 rest ih =>
    intro host hall hmem
    obtain ⟨r0, hc0⟩ := Option.isSome_iff_exists.mp (hmem u0 (List.mem_cons_self _ _))
    have hc : clookup host u0 = some r0 := hc0
    obtain ⟨r', hres, hav'⟩ := resolve_host_total hc (hall u0 r0 hc) hdns (hdhcp u0)
    have hall1 : ∀ u r, clookup (cset host u0 r') u = some r → rhas r "available" = true := by
      intro u r h
      by_cases he : u = u0
      · subst he
        rw [clookup_cset_self] at h
        rw [← Option.some.inj h]
        exact hav'
      · rw [clookup_cset_other _ _ _ _ he] at h
        exact hall u r h
    have hchas1 : ∀ w, chas (cset host u0 r') w = chas host w :=
      chas_cset_eq (ahas_of_alookup_eq_some hc)
    obtain ⟨h2, hl, hall2, hfr2, hch2⟩ := ih (cset host u0 r') hall1
      (fun u hu => (hchas1 u).trans (hmem u (List.mem_cons_of_mem _ hu)))
    refine ⟨h2, ?_, hall2, ?_, ?_⟩
    · rw [process_host_loop_cons, hres]
      exact hl
    · intro u hu
      rw [hfr2 u (fun hmm => hu (List.mem_cons_of_mem _ hmm)),
        clookup_cset_other _ _ _ _ (fun he => hu (by rw [he]; exact List.mem_cons_self _ _))]
    · intro w
      rw [hch2 w, hchas1 w]

/-- Claim C5 is false as stated: for a host whose own address is still the
`"unknown"` sentinel, the code never consults the static-DNS table (the DNS
step is guarded by `host_addr != "unknown"`), so a DNS record whose address
field literally matches the host's (unresolved) address does not win; the
host falls through to its own key.  The claim's rule would return the DNS
label `"mypc"`. -/
theorem C5_counterexample :
    (process_host hostEx5 [] [] dnsEx5 (fun _ _ => false) (.time 0)).map
        (fun h => (clookup h "AA:BB:CC:DD:EE:FF").map (fun r => rlookup r "hostname"))
      = .ok (some (some (.str "AA:BB:CC:DD:EE:FF"))) ∧
    hostnameClaim [] dnsEx5 "AA:BB:CC:DD:EE:FF" (.str "unknown") = .str "mypc" ∧
    ¬ Val.str "AA:BB:CC:DD:EE:FF" = Val.str "mypc" := by
  exact ⟨by decide, by decide, by decide⟩

/-- C5 amended: for a host already in the collection whose backfilled record
still has hostname `"unknown"`, `process_host` (with no ARP additions, DHCP
leases only for existing hosts, well-formed DNS/DHCP records and every stored
host carrying its persisted `available` flag) resolves the hostname to
`hostnameRef`: the DNS label applies only when the host's address is itself
resolved, and each later step of the comment / host-name / key chain applies
only while the hostname is still literally `"unknown"`. -/
theorem C5_hostname_precedence_amended (host dhcp dns : Col)
    (ping : Val → Val → Bool) (now : Val) (uid : String) (r0 : Rec) (a : Val)
    (hnd : (host.map Prod.fst).Nodup)
    (hdns : ∀ p ∈ dns, dnsWF p.2 = true)
    (hdhcp : ∀ u dr, clookup dhcp u = some dr → dhcpWF dr = true)
    (hall : ∀ u r, clookup host u = some r → rhas r "available" = true)
    (hsub : ∀ u ∈ dhcp.map Prod.fst, chas host u = true)
    (hc : clookup host uid = some r0)
    (hhn : rlookup (backfill host_default_pairs r0) "hostname" = some (.str "unknown"))
    (haddr : rlookup (backfill host_default_pairs r0) "address" = some a) :
    ∃ h2, process_host host dhcp [] dns ping now = .ok h2 ∧
      ∃ r', clookup h2 uid = some r' ∧
        rlookup r' "hostname" = some (hostnameRef dhcp dns uid a) := by
  have hadd1 : host_add_from dhcp "dhcp" host = .ok host :=
    host_add_from_noop dhcp "dhcp" host hsub
  have hmemks : uid ∈ host.map Prod.fst := mem_keys_of_alookup_eq_some hc
  obtain ⟨l1, l2, hks⟩ := List.append_of_mem hmemks
  have hnd2 : (l1 ++ uid :: l2).Nodup := hks ▸ hnd
  obtain ⟨hndl1, hndr, hdisj⟩ := List.nodup_append.mp hnd2
  have hu1 : uid ∉ l1 := fun hmm => hdisj hmm (List.mem_cons_self _ _)
  have hu2 : uid ∉ l2 := (List.nodup_cons.mp hndr).1
  have hmem_all : ∀ u ∈ host.map Prod.fst, chas host u = true :=
    fun u hu => alookup_isSome_of_mem hu
  obtain ⟨hA, hlA, hallA, hfrA, hchA⟩ := @process_host_loop_ok dhcp dns ping now
    hdns hdhcp l1 host hall
    (fun u hu => hmem_all u (by rw [hks]; exact List.mem_append_left _ hu))
  have hcA : clookup hA uid = some r0 := (hfrA uid hu1).trans hc
  obtain ⟨r', hres, hname, hava⟩ := @resolve_host_hostname dhcp dns hA uid r0 a ping now
    hcA (hall uid r0 hc) hhn haddr hdns (hdhcp uid)
  have hallB : ∀ u r, clookup (cset hA uid r') u = some r → rhas r "available" = true := by
    intro u r h
    by_cases he : u = uid
    · subst he
      rw [clookup_cset_self] at h
      rw [← Option.some.inj h]
      exact hava
    · rw [clookup_cset_other _ _ _ _ he] at h
      exact hallA u r h
  have hchB : ∀ w, chas (cset hA uid r') w = chas hA w :=
    chas_cset_eq (ahas_of_alookup_eq_some hcA)
  obtain ⟨h2, hlB, hallB2, hfrB, hchB2⟩ := @process_host_loop_ok dhcp dns ping now
    hdns hdhcp l2 (cset hA uid r') hallB
    (fun u hu => (hchB u).trans ((hchA u).trans (hmem_all u
      (by rw [hks]; exact List.mem_append_right _ (List.mem_cons_of_mem _ hu)))))
  refine ⟨h2, ?_, r', ?_, hname⟩
  · have hph : process_host host dhcp [] dns ping now
        = process_host_loop dhcp dns ping now (host.map Prod.fst) host := by
      unfold process_host
      rw [hadd1]
      exact rfl
    rw [hph, hks, process_host_loop_append_ok (uid :: l2) hlA,
      process_host_loop_cons, hres]
    exact hlB
  · rw [hfrB uid hu2, clookup_cset_self]

/-- C5 witness: the amended theorem applied to the single stored host with an
unresolved address, an empty lease table and one static-DNS record. -/
theorem C5_witness :
    (hostEx5.map Prod.fst).Nodup ∧
    ∃ h2, process_host hostEx5 [] [] dnsEx5 (fun _ _ => false) (.time 0) = .ok h2 ∧
      ∃ r', clookup h2 "AA:BB:CC:DD:EE:FF" = some r' ∧
        rlookup r' "hostname"
          = some (hostnameRef [] dnsEx5 "AA:BB:CC:DD:EE:FF" (.str "unknown")) :=
  ⟨by decide,
    C5_hostname_precedence_amended hostEx5 [] dnsEx5 (fun _ _ => false) (.time 0)
      "AA:BB:CC:DD:EE:FF" [("available", Val.bool false)] (.str "unknown")
      (by decide) (by decide)
      (fun u dr h => Option.noConfusion h)
      (fun u r h => by
        rw [show clookup hostEx5 u
            = alookup [("AA:BB:CC:DD:EE:FF", [("available", Val.bool false)])] u from rfl,
          alookup_singleton] at h
        by_cases he : "AA:BB:CC:DD:EE:FF" = u
        · rw [if_pos he] at h
          rw [← Option.some.inj h]
          decide
        · rw [if_neg he] at h
          exact Option.noConfusion h)
      (fun u hu => absurd hu (List.not_mem_nil _))
      (by decide) (by decide) (by decide)⟩

end Mikrotik
